import Mathlib

/-!
Verification of the task-storage layer of the tix CLI.

The development shallowly embeds:
* the `Task` dataclass (src/tix/models.py),
* the JSON-backed `TaskStorage` (src/tix/storage/json_storage.py), with the
  Python `dict` index modelled as an insertion-ordered association list with
  unique keys,
* the SQLite-backed `SQLiteTaskStorage` (src/tix/storage/sqlite_storage.py),
* the JSON-document level load / legacy-migration path (`_read_data`,
  `_load_index`, `Task.from_dict`) over a JSON value AST, and
* the relevant fragments of the CLI presentation layer (src/tix/cli.py:
  the `add` text guard, `done`, `undo`).

Timestamps (`datetime.now().isoformat()`) are modelled by threading an
explicit `now : String` parameter.
-/

namespace Tix

/-- The `Task` dataclass of src/tix/models.py (all thirteen fields, in source
order).  Timestamps are ISO strings; `completed_at` is `None` or a string. -/
structure Task where
  id : Int
  text : String
  priority : String
  completed : Bool
  created_at : String
  completed_at : Option String
  tags : List String
  attachments : List String
  links : List String
  is_global : Bool
  parent_id : Option Int
  subtasks : List Int
  notes : String
deriving Repr, DecidableEq

/-- The dataclass constructor `Task(id=.., text=.., priority=.., tags=..)` as
used by both backends' `add_task`: every other field takes its dataclass
default, with `created_at` defaulting to the current time `now`. -/
def Task.new (now : String) (id : Int) (text priority : String)
    (tags : List String) : Task :=
  { id := id, text := text, priority := priority, completed := false,
    created_at := now, completed_at := none, tags := tags, attachments := [],
    links := [], is_global := false, parent_id := none, subtasks := [],
    notes := "" }

/-- The method `Task.mark_done` (models.py lines 58-61): set `completed` and
stamp `completed_at` with the current time. -/
def Task.mark_done (t : Task) (now : String) : Task :=
  { t with completed := true, completed_at := some now }

/-! ## Python dict model

`TaskStorage._index` is a Python `dict`.  We model it as an association list
with unique keys in insertion order: assignment to an existing key replaces
the value in place, assignment to a fresh key appends, deletion removes the
entry. -/

/-- Python `d[k] = v` on an insertion-ordered association list. -/
def dictSet {α β : Type} [DecidableEq α] (k : α) (v : β) :
    List (α × β) → List (α × β)
  | [] => [(k, v)]
  | (k', v') :: rest =>
      if k' = k then (k, v) :: rest else (k', v') :: dictSet k v rest

/-- Python `d.get(k)` / `d[k]` lookup (first match; keys are unique). -/
def dictGet {α β : Type} [DecidableEq α] (k : α) :
    List (α × β) → Option β
  | [] => none
  | (k', v) :: rest => if k' = k then some v else dictGet k rest

/-- Python `del d[k]`: with unique keys this is filtering the key out. -/
def dictDel {α β : Type} [DecidableEq α] (k : α) :
    List (α × β) → List (α × β)
  | [] => []
  | (k', v) :: rest =>
      if k' = k then dictDel k rest else (k', v) :: dictDel k rest

/-- The in-memory state of a `TaskStorage` instance: the dict index
`_index` and the allocator counter `_next_id`. -/
structure Store where
  index : List (Int × Task)
  next_id : Int
deriving Repr, DecidableEq

namespace TaskStorage

/-- Python slice `l[start:stop]` for integer bounds (step 1): negative
indices count from the end, then both bounds are clamped to `[0, len]`. -/
def pySlice {α : Type} (l : List α) (start stop : Int) : List α :=
  let n : Int := l.length
  let s : Int := if start < 0 then max (start + n) 0 else min start n
  let e : Int := if stop < 0 then max (stop + n) 0 else min stop n
  (l.drop s.toNat).take (e.toNat - s.toNat)

/-- Python `max(xs, default=d)`: the default is used only for an empty
sequence (no clamping of negative maxima). -/
def pyMaxD : List Int → Int → Int
  | [], d => d
  | x :: xs, _ => xs.foldl max x

/-- `add_task` (json_storage.py lines 87-94): allocate `_next_id`, build the
task, insert it into the index, bump the counter.  Returns the new state and
the new task. -/
def add_task (s : Store) (now text priority : String) (tags : List String) :
    Store × Task :=
  let t : Task := Task.new now s.next_id text priority tags
  ({ index := dictSet s.next_id t s.index, next_id := s.next_id + 1 }, t)

/-- `get_task` (lines 96-98): `self._index.get(task_id)`. -/
def get_task (s : Store) (id : Int) : Option Task :=
  dictGet id s.index

/-- `update_task` (lines 100-104): replace the entry if the id is present,
silently no-op otherwise. -/
def update_task (s : Store) (t : Task) : Store :=
  if (dictGet t.id s.index).isSome then
    { s with index := dictSet t.id t s.index }
  else s

/-- `delete_task` (lines 106-112): remove the entry and report whether the id
was present. -/
def delete_task (s : Store) (id : Int) : Store × Bool :=
  if (dictGet id s.index).isSome then
    ({ s with index := dictDel id s.index }, true)
  else (s, false)

/-- `load_tasks` (lines 77-79): `list(self._index.values())`. -/
def load_tasks (s : Store) : List Task :=
  s.index.map Prod.snd

/-- `save_tasks` (lines 81-85): rebuild the index from the given list
(`{t.id: t for t in tasks}`, last duplicate wins) and reset the counter to
`max(ids, default=0) + 1`. -/
def save_tasks (s : Store) (ts : List Task) : Store :=
  let _ := s
  { index := ts.foldl (fun d t => dictSet t.id t d) [],
    next_id := pyMaxD (ts.map Task.id) 0 + 1 }

/-- `get_active_tasks` (lines 114-116). -/
def get_active_tasks (s : Store) : List Task :=
  (load_tasks s).filter (fun t => !t.completed)

/-- `get_completed_tasks` (lines 118-120). -/
def get_completed_tasks (s : Store) : List Task :=
  (load_tasks s).filter (fun t => t.completed)

/-- `list_tasks` (lines 123-127): the slice
`list(values)[(page-1)*page_size : (page-1)*page_size + page_size]`. -/
def list_tasks (s : Store) (page page_size : Int) : List Task :=
  pySlice (load_tasks s) ((page - 1) * page_size)
    ((page - 1) * page_size + page_size)

/-- `iter_tasks` (lines 129-132): the slice `list(values)[start:start+count]`
(the generator is observed as the finite list it yields). -/
def iter_tasks (s : Store) (start count : Int) : List Task :=
  pySlice (load_tasks s) start (start + count)

end TaskStorage

example :
    (TaskStorage.add_task ⟨[], 1⟩ "T" "Test task" "high" ["work"]).2.id = 1 := by
  decide

example :
    (TaskStorage.delete_task
      (TaskStorage.add_task ⟨[], 1⟩ "T" "a" "medium" []).1 1).2 = true := by
  decide

/-! ## Comma join / split (Python `",".join(tags)` and `s.split(",")`) -/

/-- Python `",".join` on the character level. -/
def joinChars : List (List Char) → List Char
  | [] => []
  | [g] => g
  | g :: gs => g ++ ',' :: joinChars gs

/-- Python `s.split(",")` on the character level: always returns at least one
group; a comma starts a new group. -/
def splitChars : List Char → List (List Char)
  | [] => [[]]
  | c :: cs =>
      match splitChars cs with
      | [] => [[]]
      | g :: gs => if c = ',' then [] :: g :: gs else (c :: g) :: gs

/-- Python `",".join(tags)` on strings. -/
def joinTags (tags : List String) : String :=
  String.mk (joinChars (tags.map String.data))

/-- Reading the tags column back: the empty string denotes no tags, any other
string is split on commas (Python `row.split(",") if row else []`). -/
def splitTags (s : String) : List String :=
  if s = "" then [] else (splitChars s.data).map String.mk

theorem splitChars_ne_nil (l : List Char) : splitChars l ≠ [] := by
  cases l with
  | nil => simp [splitChars]
  | cons c cs =>
      simp only [splitChars]
      cases h : splitChars cs with
      | nil => simp
      | cons g gs => by_cases hc : c = ',' <;> simp [hc]

theorem joinChars_splitChars (l : List Char) :
    joinChars (splitChars l) = l := by
  induction l with
  | nil => simp [splitChars, joinChars]
  | cons c cs ih =>
      simp only [splitChars]
      cases h : splitChars cs with
      | nil => exact absurd h (splitChars_ne_nil cs)
      | cons g gs =>
          rw [h] at ih
          by_cases hc : c = ','
          · subst hc
            simp only [if_pos rfl]
            cases gs with
            | nil => simp [joinChars] at ih ⊢; simp [ih]
            | cons g2 gs2 => simp [joinChars] at ih ⊢; simp [ih]
          · simp only [if_neg hc]
            cases gs with
            | nil => simp [joinChars] at ih ⊢; simp [ih]
            | cons g2 gs2 =>
                simp only [joinChars] at ih ⊢
                simp [ih]

theorem joinTags_splitTags (s : String) : joinTags (splitTags s) = s := by
  by_cases h : s = ""
  · subst h; rfl
  · simp only [splitTags, if_neg h, joinTags, List.map_map]
    have hd : ∀ l : List (List Char),
        l.map (String.data ∘ String.mk) = l := by
      intro l; induction l with
      | nil => rfl
      | cons x xs ih => simp [ih]
    rw [hd, joinChars_splitChars]

/-- Whether a tag list survives the comma round-trip of the SQLite tags
column.  This is decidable and fails exactly for lists with a comma inside a
tag and for the singleton empty tag. -/
def tagsRT (ts : List String) : Prop :=
  splitTags (joinTags ts) = ts

instance (ts : List String) : Decidable (tagsRT ts) := by
  unfold tagsRT; infer_instance

theorem tagsRT_splitTags (s : String) : tagsRT (splitTags s) := by
  unfold tagsRT
  rw [joinTags_splitTags]

/-! ## SQLite backend (src/tix/storage/sqlite_storage.py)

The table has seven columns (schema in `_init_db`, lines 15-27).  The row
serialization methods `Task.to_row` / `Task.from_row` are called throughout
sqlite_storage.py but their definition is not part of the source snapshot
(src/ is a subset of the repository: cli.py imports `tix.config`, also
absent), so they are modelled from the spec (see their doc comments). -/

/-- One row of the `tasks` table: columns exactly as created by `_init_db`
(`completed` is an SQLite integer). -/
structure Row where
  id : Int
  text : String
  priority : String
  completed : Int
  created_at : String
  completed_at : Option String
  tags : String
deriving Repr, DecidableEq

/-- Modelled from the spec: `Task.to_row` (called at sqlite_storage.py lines
33 and 51, missing from src/).  Spec section 4.2: tags are persisted as a
comma-joined string in a single column; section 6 gives the column order
`(text, priority, completed, created_at, completed_at, tags)`; `completed`
is stored as an integer. -/
def Task.to_row (t : Task) :
    String × String × Int × String × Option String × String :=
  (t.text, t.priority, if t.completed then 1 else 0, t.created_at,
    t.completed_at, joinTags t.tags)

/-- Assemble a table row from an id and the six `to_row` columns. -/
def mkRow (id : Int)
    (cols : String × String × Int × String × Option String × String) : Row :=
  { id := id, text := cols.1, priority := cols.2.1, completed := cols.2.2.1,
    created_at := cols.2.2.2.1, completed_at := cols.2.2.2.2.1,
    tags := cols.2.2.2.2.2 }

/-- Modelled from the spec: `Task.from_row` (called at sqlite_storage.py
lines 42, 46, 62, 66, 71, 76, missing from src/).  Spec section 4.2: tags are
re-split on read (an empty column means no tags); fields without a table
column take their dataclass defaults; a nonzero `completed` integer is true. -/
def Task.from_row (r : Row) : Task :=
  { id := r.id, text := r.text, priority := r.priority,
    completed := if r.completed = 0 then false else true,
    created_at := r.created_at, completed_at := r.completed_at,
    tags := splitTags r.tags, attachments := [], links := [],
    is_global := false, parent_id := none, subtasks := [], notes := "" }

/-- The row that a task occupies in the table: its id plus its `to_row`
columns. -/
def rowOf (t : Task) : Row :=
  mkRow t.id (Task.to_row t)

/-- The state of a `SQLiteTaskStorage` instance: the `tasks` table and the
AUTOINCREMENT sequence value (largest rowid ever allocated; SQLite never
reuses it).  `rows` is kept in ascending id order — inserts always allocate a
strictly larger id and append — so reading `rows` as stored is exactly
`SELECT * FROM tasks ORDER BY id`. -/
structure SqliteStore where
  rows : List Row
  seq : Int
deriving Repr, DecidableEq

namespace SQLiteTaskStorage

/-- `add_task` (sqlite_storage.py lines 29-37): build `Task(id=0, ...)`,
INSERT its `to_row` columns, then overwrite `task.id` with the fresh rowid
(`cur.lastrowid`, which AUTOINCREMENT makes `seq + 1`). -/
def add_task (q : SqliteStore) (now text priority : String)
    (tags : List String) : SqliteStore × Task :=
  let t0 : Task := Task.new now 0 text priority tags
  let newId : Int := q.seq + 1
  ({ rows := q.rows ++ [mkRow newId (Task.to_row t0)], seq := newId },
    { t0 with id := newId })

/-- `get_task` (lines 39-42): `SELECT * FROM tasks WHERE id=?`, first row or
`None`. -/
def get_task (q : SqliteStore) (id : Int) : Option Task :=
  (q.rows.find? (fun r => r.id == id)).map Task.from_row

/-- `load_tasks` (lines 44-46): `SELECT * FROM tasks ORDER BY id`. -/
def load_tasks (q : SqliteStore) : List Task :=
  q.rows.map Task.from_row

/-- `update_task` (lines 48-53): `UPDATE tasks SET ... WHERE id=?` — rewrites
the columns of every row with the task's id (at most one), no error when the
id is absent. -/
def update_task (q : SqliteStore) (t : Task) : SqliteStore :=
  { q with rows := q.rows.map (fun r =>
      if r.id == t.id then mkRow r.id (Task.to_row t) else r) }

/-- `delete_task` (lines 55-58): `DELETE FROM tasks WHERE id=?`, returning
`rowcount > 0`. -/
def delete_task (q : SqliteStore) (id : Int) : SqliteStore × Bool :=
  ({ q with rows := q.rows.filter (fun r => !(r.id == id)) },
    q.rows.any (fun r => r.id == id))

/-- `get_active_tasks` (lines 60-62): `WHERE completed=0 ORDER BY id`. -/
def get_active_tasks (q : SqliteStore) : List Task :=
  (q.rows.filter (fun r => r.completed == 0)).map Task.from_row

/-- `get_completed_tasks` (lines 64-66): `WHERE completed=1 ORDER BY id`. -/
def get_completed_tasks (q : SqliteStore) : List Task :=
  (q.rows.filter (fun r => r.completed == 1)).map Task.from_row

/-- `list_tasks` (lines 68-71): `LIMIT page_size OFFSET (page-1)*page_size`,
modelled for the nonnegative arguments pagination uses. -/
def list_tasks (q : SqliteStore) (page page_size : Int) : List Task :=
  ((q.rows.drop ((page - 1) * page_size).toNat).take page_size.toNat).map
    Task.from_row

/-- `iter_tasks` (lines 73-76): `LIMIT count OFFSET start`, modelled for
nonnegative arguments; the generator is observed as the list it yields. -/
def iter_tasks (q : SqliteStore) (start count : Int) : List Task :=
  ((q.rows.drop start.toNat).take count.toNat).map Task.from_row

end SQLiteTaskStorage

example :
    (SQLiteTaskStorage.add_task ⟨[], 0⟩ "T" "SQLite test" "high" ["work"]).2.id
      = 1 := by decide

example :
    SQLiteTaskStorage.load_tasks
      (SQLiteTaskStorage.add_task ⟨[], 0⟩ "T" "X" "high" ["a,b"]).1
      = [{ id := 1, text := "X", priority := "high", completed := false,
           created_at := "T", completed_at := none, tags := ["a", "b"],
           attachments := [], links := [], is_global := false,
           parent_id := none, subtasks := [], notes := "" }] := by decide

/-! ## JSON documents and the load / migration path

`_read_data` and `_load_index` (json_storage.py lines 26-67) work on the
parsed JSON document.  `JVal` is the value universe of `json.loads`; parsed
objects have unique keys (`json.loads` builds a dict).  Non-integer numbers
are omitted from the universe: in every code path modelled here a float
behaves exactly like another wrong-typed value (`jstr`).  A parse failure
(`json.JSONDecodeError`, and likewise `FileNotFoundError`) is represented by
reading `none`. -/

inductive JVal where
  | jnull
  | jbool (b : Bool)
  | jint (n : Int)
  | jstr (s : String)
  | jarr (elems : List JVal)
  | jobj (fields : List (String × JVal))

open JVal

/-- Python `isinstance(v, int)`: true for ints and for bools (bool is a
subclass of int). -/
def pyIsInt : JVal → Bool
  | jint _ => true
  | jbool _ => true
  | _ => false

/-- Numeric value of an int-like JSON value (`True == 1`, `False == 0`). -/
def toIntVal : JVal → Int
  | jint n => n
  | jbool b => if b then 1 else 0
  | _ => 0

/-- Python exceptions that can escape the load path. -/
inductive PyErr where
  | keyError
  | typeError
deriving Repr, DecidableEq

/-- Python iteration over a value (`for t in data["tasks"]`): lists yield
their elements, strings their characters (as one-character strings), dicts
their keys; other values raise `TypeError`. -/
def pyIter : JVal → Except PyErr (List JVal)
  | jarr xs => .ok xs
  | jstr s => .ok (s.data.map (fun c => jstr (String.mk [c])))
  | jobj o => .ok (o.map (fun kv => jstr kv.1))
  | _ => .error .typeError

/-- The legacy-array upgrade loop of `_read_data` (lines 32-43): walk the
array with a 1-based position counter, skip entries that are not dicts,
patch a missing / non-int-like / nonpositive `id` to the position, and
accumulate the running maximum id.  Returns the upgraded entries (as dict
field lists) and the final `max_id`. -/
def upgradeGo : Int → Int → List JVal → List (List (String × JVal)) × Int
  | _, maxId, [] => ([], maxId)
  | i, maxId, t :: rest =>
      match t with
      | jobj o =>
          let needPatch : Bool :=
            match dictGet "id" o with
            | none => true
            | some v => !pyIsInt v || decide (toIntVal v ≤ 0)
          let o' := if needPatch then dictSet "id" (jint i) o else o
          let idv := toIntVal ((dictGet "id" o').getD (jint i))
          let r := upgradeGo (i + 1) (max maxId idv) rest
          (o' :: r.1, r.2)
      | _ => upgradeGo (i + 1) maxId rest

/-- The upgraded entry list of a legacy array. -/
def upgradeEntries (xs : List JVal) : List (List (String × JVal)) :=
  (upgradeGo 1 0 xs).1

/-- The `next_id` the upgrade computes: `max_id + 1`. -/
def upgradeNextId (xs : List JVal) : Int :=
  (upgradeGo 1 0 xs).2 + 1

/-- The current-shape document `_read_data` writes back for a legacy array
(line 45-46). -/
def upgradedDoc (xs : List JVal) : JVal :=
  jobj [("next_id", jint (upgradeNextId xs)),
        ("tasks", jarr ((upgradeEntries xs).map jobj))]

/-- `_read_data` (lines 26-57).  The result is observed through the two keys
`_load_index` reads (`next_id` and `tasks`); the second component is the
document written back during the read (legacy upgrade only).
* a parse failure (`none`) falls to the empty fallback;
* a legacy array is upgraded, written back, and returned;
* a dict containing both `tasks` and `next_id` is returned as-is;
* anything else falls to the empty fallback (`next_id=1, tasks=[]`). -/
def read_data : Option JVal → (JVal × JVal) × Option JVal
  | none => ((jint 1, jarr []), none)
  | some raw =>
      match raw with
      | jarr xs => ((jint (upgradeNextId xs), jarr ((upgradeEntries xs).map jobj)),
          some (upgradedDoc xs))
      | jobj o =>
          if (dictGet "tasks" o).isSome && (dictGet "next_id" o).isSome then
            (((dictGet "next_id" o).getD jnull, (dictGet "tasks" o).getD jnull),
              none)
          else ((jint 1, jarr []), none)
      | _ => ((jint 1, jarr []), none)

/-- The thirteen dataclass field names of `Task`, the admissible keyword
arguments of `Task(**data)`. -/
def fieldNames : List String :=
  ["id", "text", "priority", "completed", "created_at", "completed_at",
   "tags", "attachments", "links", "is_global", "parent_id", "subtasks",
   "notes"]

/-- The default-insertion guards of `Task.from_dict` (models.py lines 44-55):
add each missing extended field with its default. -/
def addDefaults (o : List (String × JVal)) : List (String × JVal) :=
  let add := fun (k : String) (v : JVal) (o : List (String × JVal)) =>
    if (dictGet k o).isSome then o else o ++ [(k, v)]
  add "notes" (jstr "")
    (add "subtasks" (jarr [])
      (add "parent_id" jnull
        (add "is_global" (jbool false)
          (add "links" (jarr []) (add "attachments" (jarr []) o)))))

/-- Read a JSON value as a string. -/
def asStr : JVal → Except PyErr String
  | jstr s => .ok s
  | _ => .error .typeError

/-- Read a JSON value as an int; int-like values (ints and bools) are
accepted with their numeric value.  Python itself performs no type check
here — a non-int-like value is outside the typed state space of this model
and mapped to an error marker; no theorem below depends on that branch. -/
def asInt : JVal → Except PyErr Int
  | jint n => .ok n
  | jbool b => .ok (if b then 1 else 0)
  | _ => .error .typeError

/-- Map a reader over a list, short-circuiting on the first error. -/
def seqMap {α : Type} (f : JVal → Except PyErr α) :
    List JVal → Except PyErr (List α)
  | [] => .ok []
  | v :: vs =>
      match f v, seqMap f vs with
      | .ok a, .ok rest => .ok (a :: rest)
      | .error e, _ => .error e
      | .ok _, .error e => .error e

/-- Optional string field with default. -/
def getStrD (o : List (String × JVal)) (k : String) (d : String) :
    Except PyErr String :=
  match dictGet k o with
  | none => .ok d
  | some v => asStr v

/-- Optional string-list field with default `[]`. -/
def getStrListD (o : List (String × JVal)) (k : String) :
    Except PyErr (List String) :=
  match dictGet k o with
  | none => .ok []
  | some (jarr vs) => seqMap asStr vs
  | some _ => .error .typeError

/-- `Task.from_dict` (models.py lines 40-56): insert defaults for missing
extended fields, then `Task(**data)` — every key must be a field name, `id`
and `text` are required, the remaining fields default.  Values are read at
their dataclass types; `created_at` defaults to the current time `now`. -/
def from_dict (now : String) (o₀ : List (String × JVal)) :
    Except PyErr Task :=
  let o := addDefaults o₀
  if !(o.all (fun kv => fieldNames.contains kv.1)) then .error .typeError
  else do
    let id ← match dictGet "id" o with
      | some v => asInt v
      | none => .error .typeError
    let text ← match dictGet "text" o with
      | some v => asStr v
      | none => .error .typeError
    let priority ← getStrD o "priority" "medium"
    let completed ← match dictGet "completed" o with
      | none => .ok false
      | some (jbool b) => .ok b
      | some _ => .error .typeError
    let created_at ← getStrD o "created_at" now
    let completed_at ← match dictGet "completed_at" o with
      | none => .ok none
      | some jnull => .ok none
      | some (jstr s) => .ok (some s)
      | some _ => .error .typeError
    let tags ← getStrListD o "tags"
    let attachments ← getStrListD o "attachments"
    let links ← getStrListD o "links"
    let is_global ← match dictGet "is_global" o with
      | none => .ok false
      | some (jbool b) => .ok b
      | some _ => .error .typeError
    let parent_id ← match dictGet "parent_id" o with
      | none => .ok none
      | some jnull => .ok none
      | some v => if pyIsInt v then .ok (some (toIntVal v)) else .error .typeError
    let subtasks ← match dictGet "subtasks" o with
      | none => .ok []
      | some (jarr vs) => seqMap asInt vs
      | some _ => .error .typeError
    let notes ← getStrD o "notes" ""
    pure { id := id, text := text, priority := priority,
           completed := completed, created_at := created_at,
           completed_at := completed_at, tags := tags,
           attachments := attachments, links := links,
           is_global := is_global, parent_id := parent_id,
           subtasks := subtasks, notes := notes }

/-- `Task.to_dict` (models.py lines 22-38): the thirteen fields in source
order. -/
def to_dict (t : Task) : List (String × JVal) :=
  [("id", jint t.id), ("text", jstr t.text), ("priority", jstr t.priority),
   ("completed", jbool t.completed), ("created_at", jstr t.created_at),
   ("completed_at", (t.completed_at.map jstr).getD jnull),
   ("tags", jarr (t.tags.map jstr)),
   ("attachments", jarr (t.attachments.map jstr)),
   ("links", jarr (t.links.map jstr)), ("is_global", jbool t.is_global),
   ("parent_id", (t.parent_id.map jint).getD jnull),
   ("subtasks", jarr (t.subtasks.map jint)), ("notes", jstr t.notes)]

/-- One entry of the `_load_index` dict comprehension
`{t["id"]: Task.from_dict(t) for t in data["tasks"]}` (line 66): the key
`t["id"]` (`KeyError` if missing, `TypeError` if the entry is not a dict;
int-like keys are taken at their numeric value — a `True` key equals the key
`1` in a Python dict) and the value `Task.from_dict(t)`. -/
def entryKV (now : String) : JVal → Except PyErr (Int × Task)
  | jobj o => do
      let k ← match dictGet "id" o with
        | some v => asInt v
        | none => .error PyErr.keyError
      let t ← from_dict now o
      pure (k, t)
  | _ => .error .typeError

/-- Build the index dict from the raw task entries (later duplicate ids
overwrite earlier ones, keeping the earlier position). -/
def buildIndex (now : String) : List JVal → List (Int × Task) →
    Except PyErr (List (Int × Task))
  | [], d => .ok d
  | t :: ts, d =>
      match entryKV now t with
      | .error e => .error e
      | .ok kv => buildIndex now ts (dictSet kv.1 kv.2 d)

/-- The `next_id` value becomes the store's integer counter; int-like values
are taken numerically.  Python itself would accept any value here and only
fail at the first `add_task`; such documents are outside the typed state
space of this model and mapped to an error marker — no theorem below depends
on that branch. -/
def pyNextId : JVal → Except PyErr Int
  | jint n => .ok n
  | jbool b => .ok (if b then 1 else 0)
  | _ => .error .typeError

/-- `_load_index` (lines 63-67) composed with store construction: read (and
possibly upgrade) the document, iterate the task entries into the index
dict, and take over the `next_id` counter. -/
def load_index (now : String) (raw : Option JVal) : Except PyErr Store :=
  let r := read_data raw
  do
    let ts ← pyIter r.1.2
    let idx ← buildIndex now ts []
    let n ← pyNextId r.1.1
    pure { index := idx, next_id := n }

/-- Decidable success test for the load path. -/
def isOkE {ε α : Type} : Except ε α → Bool
  | .ok _ => true
  | .error _ => false

example :
    load_index "T" (some (jarr [jobj [("id", jint 5), ("text", jstr "legacy"),
      ("priority", jstr "low"), ("tags", jarr []),
      ("completed", jbool false)]]))
    = Except.ok (Store.mk [(5, Task.mk 5 "legacy" "low" false "T" none [] []
        [] false none [] "")] 6) := by
  rfl

example :
    isOkE (load_index "T" (some (jobj [("next_id", jint 1),
      ("tasks", jarr [jobj []])]))) = false := by decide

/-! ## CLI fragments (src/tix/cli.py) -/

/-- Python truthiness of `task.strip()` negated: `not task or not task.strip()`
holds exactly when every character is whitespace (the empty string
included). -/
def pyBlank (s : String) : Bool :=
  s.data.all Char.isWhitespace

/-- The `add` command's text handling (cli.py lines 131-144): reject empty or
all-whitespace text (`sys.exit(1)`, modelled as `none`), otherwise pass the
raw, untrimmed text to `storage.add_task`.  The default-tag merge from the
config happens before the storage call and is modelled by the `tags`
parameter. -/
def cliAdd (s : Store) (now text priority : String) (tags : List String) :
    Option (Store × Task) :=
  if pyBlank text then none
  else some (TaskStorage.add_task s now text priority tags)

/-- The reactivation performed by the `undo` command (cli.py lines 505-506):
`task.completed = False; task.completed_at = None`. -/
def reactivate (t : Task) : Task :=
  { t with completed := false, completed_at := none }

/-- Whether a string starts with a whitespace character (so it is not equal
to its whitespace-trimmed form unless everything else is empty). -/
def startsWithWS (s : String) : Bool :=
  match s.data with
  | [] => false
  | c :: _ => c.isWhitespace

/-! ## Operation sequences over one store

`Op` is a storage-mutating call of the common backend contract: `add_task`
with text/priority/tags, `update_task` with a full task, `delete_task` with
an id. -/

inductive Op where
  | add (now text priority : String) (tags : List String)
  | update (t : Task)
  | del (id : Int)
deriving Repr, DecidableEq

/-- One mutating call on the JSON store. -/
def stepJ (s : Store) : Op → Store
  | .add now text priority tags =>
      (TaskStorage.add_task s now text priority tags).1
  | .update t => TaskStorage.update_task s t
  | .del id => (TaskStorage.delete_task s id).1

/-- A call sequence on the JSON store. -/
def runJ (s : Store) (ops : List Op) : Store :=
  ops.foldl stepJ s

/-- One mutating call on the SQLite store. -/
def stepQ (q : SqliteStore) : Op → SqliteStore
  | .add now text priority tags =>
      (SQLiteTaskStorage.add_task q now text priority tags).1
  | .update t => SQLiteTaskStorage.update_task q t
  | .del id => (SQLiteTaskStorage.delete_task q id).1

/-- A call sequence on the SQLite store. -/
def runQ (q : SqliteStore) (ops : List Op) : SqliteStore :=
  ops.foldl stepQ q

/-- The ids handed out by `add_task` along a call sequence on the JSON
store, in order. -/
def allocIds : Store → List Op → List Int
  | _, [] => []
  | s, o :: rest =>
      match o with
      | .add _ _ _ _ => s.next_id :: allocIds (stepJ s o) rest
      | _ => allocIds (stepJ s o) rest

/-- The keys of the index dict. -/
def storeKeys (s : Store) : List Int :=
  s.index.map Prod.fst

/-- Every id present initially or allocated during the sequence. -/
def everIds (s₀ : Store) (ops : List Op) : List Int :=
  storeKeys s₀ ++ allocIds s₀ ops

/-- Store well-formedness: the index keys are distinct and below the
allocator counter.  A fresh store satisfies it and every operation preserves
it, so it holds for every state the code itself ever persists. -/
def StoreWF (s : Store) : Prop :=
  (storeKeys s).Nodup ∧ ∀ k ∈ storeKeys s, k < s.next_id

instance (s : Store) : Decidable (StoreWF s) := by
  unfold StoreWF; infer_instance

/-! ## Dict lemmas -/

theorem dictGet_dictSet_self {α β : Type} [DecidableEq α] (k : α) (v : β)
    (l : List (α × β)) : dictGet k (dictSet k v l) = some v := by
  induction l with
  | nil => simp [dictSet, dictGet]
  | cons kv rest ih =>
      obtain ⟨k', v'⟩ := kv
      by_cases h : k' = k
      · simp [dictSet, dictGet, h]
      · simp [dictSet, dictGet, h, ih]

theorem dictGet_dictSet_ne {α β : Type} [DecidableEq α] (j k : α) (v : β)
    (l : List (α × β)) (h : j ≠ k) :
    dictGet j (dictSet k v l) = dictGet j l := by
  induction l with
  | nil => simp [dictSet, dictGet, Ne.symm h]
  | cons kv rest ih =>
      obtain ⟨k', v'⟩ := kv
      by_cases h1 : k' = k
      · subst h1
        simp [dictSet, dictGet, Ne.symm h]
      · simp only [dictSet, if_neg h1]
        by_cases h2 : k' = j
        · simp [dictGet, h2]
        · simp [dictGet, h2, ih]

theorem dictGet_isSome_iff {α β : Type} [DecidableEq α] (k : α)
    (l : List (α × β)) :
    (dictGet k l).isSome = true ↔ k ∈ l.map Prod.fst := by
  induction l with
  | nil => simp [dictGet]
  | cons kv rest ih =>
      obtain ⟨k', v'⟩ := kv
      by_cases h : k' = k
      · simp [dictGet, h]
      · simp [dictGet, h, ih, Ne.symm h]

theorem dictSet_of_not_mem {α β : Type} [DecidableEq α] (k : α) (v : β)
    (l : List (α × β)) (h : k ∉ l.map Prod.fst) :
    dictSet k v l = l ++ [(k, v)] := by
  induction l with
  | nil => simp [dictSet]
  | cons kv rest ih =>
      obtain ⟨k', v'⟩ := kv
      simp only [List.map_cons, List.mem_cons] at h
      push_neg at h
      simp [dictSet, Ne.symm h.1, ih h.2]

theorem keys_dictSet_of_mem {α β : Type} [DecidableEq α] (k : α) (v : β)
    (l : List (α × β)) (h : k ∈ l.map Prod.fst) :
    (dictSet k v l).map Prod.fst = l.map Prod.fst := by
  induction l with
  | nil => simp at h
  | cons kv rest ih =>
      obtain ⟨k', v'⟩ := kv
      by_cases h1 : k' = k
      · simp [dictSet, h1]
      · simp only [List.map_cons, List.mem_cons] at h
        rcases h with h | h
        · exact absurd h.symm h1
        · simp [dictSet, h1, ih h]

theorem dictGet_dictDel_self {α β : Type} [DecidableEq α] (k : α)
    (l : List (α × β)) : dictGet k (dictDel k l) = none := by
  induction l with
  | nil => simp [dictDel, dictGet]
  | cons kv rest ih =>
      obtain ⟨k', v'⟩ := kv
      by_cases h : k' = k
      · simpa [dictDel, h] using ih
      · simpa [dictDel, dictGet, h] using ih

theorem dictGet_dictDel_ne {α β : Type} [DecidableEq α] (j k : α)
    (l : List (α × β)) (h : j ≠ k) :
    dictGet j (dictDel k l) = dictGet j l := by
  induction l with
  | nil => simp [dictDel, dictGet]
  | cons kv rest ih =>
      obtain ⟨k', v'⟩ := kv
      by_cases h1 : k' = k
      · subst h1
        simp only [dictDel, if_pos rfl, dictGet, Ne.symm h, if_neg]
        simpa using ih
      · simp only [dictDel, if_neg h1, dictGet]
        by_cases h2 : k' = j
        · simp [h2]
        · simp [h2, ih]

theorem keys_dictDel {α β : Type} [DecidableEq α] (k : α)
    (l : List (α × β)) :
    (dictDel k l).map Prod.fst = (l.map Prod.fst).filter (fun j => j ≠ k) := by
  induction l with
  | nil => simp [dictDel]
  | cons kv rest ih =>
      obtain ⟨k', v'⟩ := kv
      by_cases h : k' = k
      · simpa [dictDel, List.filter_cons, h] using ih
      · simpa [dictDel, List.filter_cons, h] using ih

/-! ## Allocator invariants (JSON backend) -/

theorem keys_add_task (s : Store) (h : s.next_id ∉ storeKeys s)
    (now text priority : String) (tags : List String) :
    storeKeys (TaskStorage.add_task s now text priority tags).1
      = storeKeys s ++ [s.next_id] := by
  unfold storeKeys TaskStorage.add_task
  simp [dictSet_of_not_mem s.next_id _ s.index h]

theorem next_id_add_task (s : Store) (now text priority : String)
    (tags : List String) :
    (TaskStorage.add_task s now text priority tags).1.next_id
      = s.next_id + 1 := rfl

theorem keys_update_task (s : Store) (t : Task) :
    storeKeys (TaskStorage.update_task s t) = storeKeys s := by
  unfold TaskStorage.update_task
  by_cases h : (dictGet t.id s.index).isSome = true
  · have hm : t.id ∈ s.index.map Prod.fst := (dictGet_isSome_iff t.id s.index).1 h
    simp [h, storeKeys, keys_dictSet_of_mem t.id t s.index hm]
  · simp [h]

theorem next_id_update_task (s : Store) (t : Task) :
    (TaskStorage.update_task s t).next_id = s.next_id := by
  unfold TaskStorage.update_task
  by_cases h : (dictGet t.id s.index).isSome = true <;> simp [h]

theorem next_id_delete_task (s : Store) (id : Int) :
    (TaskStorage.delete_task s id).1.next_id = s.next_id := by
  unfold TaskStorage.delete_task
  by_cases h : (dictGet id s.index).isSome = true <;> simp [h]

theorem keys_delete_task_sub (s : Store) (id : Int) (k : Int)
    (h : k ∈ storeKeys (TaskStorage.delete_task s id).1) :
    k ∈ storeKeys s := by
  unfold TaskStorage.delete_task at h
  by_cases h1 : (dictGet id s.index).isSome = true
  · simp only [h1, if_pos] at h
    simp only [storeKeys, keys_dictDel, List.mem_filter] at h
    exact h.1
  · simpa [h1] using h

theorem nodup_keys_delete_task (s : Store) (id : Int)
    (h : (storeKeys s).Nodup) :
    (storeKeys (TaskStorage.delete_task s id).1).Nodup := by
  unfold TaskStorage.delete_task
  by_cases h1 : (dictGet id s.index).isSome = true
  · simp only [h1, if_pos]
    simp only [storeKeys, keys_dictDel]
    exact List.Nodup.filter _ h
  · simpa [h1] using h

theorem wf_stepJ (s : Store) (o : Op) (h : StoreWF s) : StoreWF (stepJ s o) := by
  obtain ⟨hnd, hlt⟩ := h
  cases o with
  | add now text priority tags =>
      have hnm : s.next_id ∉ storeKeys s := fun hm => absurd (hlt _ hm) (lt_irrefl _)
      constructor
      · rw [stepJ, keys_add_task s hnm]
        simp [List.nodup_append, hnd, List.disjoint_singleton, hnm]
      · intro k hk
        rw [stepJ, keys_add_task s hnm] at hk
        rw [stepJ, next_id_add_task]
        rcases List.mem_append.1 hk with hk | hk
        · exact lt_trans (hlt k hk) (lt_add_one _)
        · simp only [List.mem_singleton] at hk
          subst hk
          exact lt_add_one _
  | update t =>
      constructor
      · rw [stepJ, keys_update_task]; exact hnd
      · intro k hk
        rw [stepJ, keys_update_task] at hk
        rw [stepJ, next_id_update_task]
        exact hlt k hk
  | del id =>
      constructor
      · exact nodup_keys_delete_task s id hnd
      · intro k hk
        rw [stepJ, next_id_delete_task]
        exact hlt k (keys_delete_task_sub s id k hk)

theorem next_id_le_stepJ (s : Store) (o : Op) :
    s.next_id ≤ (stepJ s o).next_id := by
  cases o with
  | add now text priority tags =>
      rw [stepJ, next_id_add_task]; exact le_of_lt (lt_add_one _)
  | update t => rw [stepJ, next_id_update_task]
  | del id => rw [stepJ, next_id_delete_task]

theorem runJ_cons (s : Store) (o : Op) (ops : List Op) :
    runJ s (o :: ops) = runJ (stepJ s o) ops := rfl

theorem next_id_le_runJ (s : Store) (ops : List Op) :
    s.next_id ≤ (runJ s ops).next_id := by
  induction ops generalizing s with
  | nil => exact le_refl _
  | cons o rest ih =>
      rw [runJ_cons]
      exact le_trans (next_id_le_stepJ s o) (ih (stepJ s o))

theorem wf_runJ (s : Store) (ops : List Op) (h : StoreWF s) :
    StoreWF (runJ s ops) := by
  induction ops generalizing s with
  | nil => exact h
  | cons o rest ih => exact ih (stepJ s o) (wf_stepJ s o h)

theorem allocIds_lt (s : Store) (ops : List Op) :
    ∀ b ∈ allocIds s ops, b < (runJ s ops).next_id := by
  induction ops generalizing s with
  | nil => intro b hb; simp [allocIds] at hb
  | cons o rest ih =>
      intro b hb
      cases o with
      | add now text priority tags =>
          simp only [allocIds, List.mem_cons] at hb
          rcases hb with hb | hb
          · subst hb
            rw [runJ_cons]
            calc s.next_id < (stepJ s (Op.add now text priority tags)).next_id := by
                  rw [stepJ, next_id_add_task]; exact lt_add_one _
              _ ≤ (runJ (stepJ s (Op.add now text priority tags)) rest).next_id :=
                  next_id_le_runJ _ rest
          · exact ih (stepJ s (Op.add now text priority tags)) b hb
      | update t => exact ih (stepJ s (Op.update t)) b hb
      | del id => exact ih (stepJ s (Op.del id)) b hb

theorem le_foldl_max_init (b : Int) (l : List Int) : b ≤ l.foldl max b := by
  induction l generalizing b with
  | nil => exact le_refl _
  | cons c cs ih => exact le_trans (le_max_left b c) (ih (max b c))

theorem mem_le_foldl_max (x : Int) (l : List Int) :
    ∀ b, x ∈ l → x ≤ l.foldl max b := by
  induction l with
  | nil => intro b h; simp at h
  | cons c cs ih =>
      intro b h
      rcases List.mem_cons.1 h with h1 | h1
      · subst h1
        simp only [List.foldl_cons]
        exact le_trans (le_max_right b x) (le_foldl_max_init _ cs)
      · simp only [List.foldl_cons]
        exact ih (max b c) h1

theorem le_pyMaxD (x : Int) (xs : List Int) (h : x ∈ xs) (d : Int) :
    x ≤ TaskStorage.pyMaxD xs d := by
  cases xs with
  | nil => simp at h
  | cons y ys =>
      simp only [TaskStorage.pyMaxD]
      rcases List.mem_cons.1 h with h | h
      · subst h; exact le_foldl_max_init x ys
      · exact mem_le_foldl_max x ys y h

/-- Claim C2: along any `add_task`/`update_task`/`delete_task` sequence on a
well-formed JSON store (no intervening `save_tasks`), the index keys stay
distinct, `add_task` hands out exactly the counter `_next_id`, and that
counter strictly exceeds every id present initially and every id allocated
so far — so an id that was ever present or allocated (in particular any
deleted one) is never reissued; and immediately after `save_tasks ts` the
next `add_task` allocates `max(ids)+1`, or `1` when `ts` is empty. -/
theorem claim_C2 (s₀ : Store) (h : StoreWF s₀) (ops : List Op)
    (ts : List Task) (now text priority : String) (tags : List String) :
    (storeKeys (runJ s₀ ops)).Nodup
    ∧ (TaskStorage.add_task (runJ s₀ ops) now text priority tags).2.id
        = (runJ s₀ ops).next_id
    ∧ (∀ b ∈ everIds s₀ ops, b < (runJ s₀ ops).next_id)
    ∧ (TaskStorage.add_task (TaskStorage.save_tasks (runJ s₀ ops) ts)
          now text priority tags).2.id
        = (if ts = [] then 1 else TaskStorage.pyMaxD (ts.map Task.id) 0 + 1) := by
  refine ⟨(wf_runJ s₀ ops h).1, rfl, ?_, ?_⟩
  · intro b hb
    rcases List.mem_append.1 hb with hb | hb
    · exact lt_of_lt_of_le (h.2 b hb) (next_id_le_runJ s₀ ops)
    · exact allocIds_lt s₀ ops b hb
  · by_cases hts : ts = []
    · subst hts; rfl
    · simp only [if_neg hts]
      rfl

/-- Witness for C2 at a concrete store and call sequence (an add, a delete
of the allocated id, then another add). -/
theorem claim_C2_witness :
    StoreWF (Store.mk [] 1)
    ∧ ((storeKeys (runJ (Store.mk [] 1)
          [Op.add "T" "a" "medium" [], Op.del 1,
           Op.add "T" "b" "medium" []])).Nodup
      ∧ (TaskStorage.add_task (runJ (Store.mk [] 1)
            [Op.add "T" "a" "medium" [], Op.del 1,
             Op.add "T" "b" "medium" []]) "T" "c" "high" ["w"]).2.id
          = (runJ (Store.mk [] 1)
              [Op.add "T" "a" "medium" [], Op.del 1,
               Op.add "T" "b" "medium" []]).next_id
      ∧ (∀ b ∈ everIds (Store.mk [] 1)
            [Op.add "T" "a" "medium" [], Op.del 1,
             Op.add "T" "b" "medium" []],
          b < (runJ (Store.mk [] 1)
              [Op.add "T" "a" "medium" [], Op.del 1,
               Op.add "T" "b" "medium" []]).next_id)
      ∧ (TaskStorage.add_task (TaskStorage.save_tasks (runJ (Store.mk [] 1)
            [Op.add "T" "a" "medium" [], Op.del 1,
             Op.add "T" "b" "medium" []]) []) "T" "c" "high" ["w"]).2.id
          = (if ([] : List Task) = [] then 1
             else TaskStorage.pyMaxD (([] : List Task).map Task.id) 0 + 1)) :=
  ⟨by decide, claim_C2 (Store.mk [] 1) (by decide)
    [Op.add "T" "a" "medium" [], Op.del 1, Op.add "T" "b" "medium" []]
    [] "T" "c" "high" ["w"]⟩

/-! ## Mutations on unknown ids (claim C6) -/

theorem map_eq_self_of_fix {α : Type} (l : List α) (f : α → α)
    (h : ∀ a ∈ l, f a = a) : l.map f = l := by
  induction l with
  | nil => rfl
  | cons a rest ih =>
      simp only [List.map_cons]
      rw [h a (List.mem_cons_self a rest), ih (fun a ha => h a (List.mem_cons_of_mem _ ha))]

theorem filter_eq_self_of_all {α : Type} (l : List α) (p : α → Bool)
    (h : ∀ a ∈ l, p a = true) : l.filter p = l := by
  induction l with
  | nil => rfl
  | cons a rest ih =>
      rw [List.filter_cons, if_pos (h a (List.mem_cons_self a rest)),
        ih (fun a ha => h a (List.mem_cons_of_mem _ ha))]

theorem find?_filter_of_imp {α : Type} (l : List α) (pr keep : α → Bool)
    (h : ∀ a, pr a = true → keep a = true) :
    (l.filter keep).find? pr = l.find? pr := by
  induction l with
  | nil => rfl
  | cons a rest ih =>
      by_cases hp : pr a = true
      · rw [List.filter_cons, if_pos (h a hp), List.find?_cons_of_pos _ hp,
          List.find?_cons_of_pos _ hp]
      · rw [List.find?_cons_of_neg _ hp, List.filter_cons]
        by_cases hk : keep a = true
        · rw [if_pos hk, List.find?_cons_of_neg _ hp, ih]
        · rw [if_neg hk, ih]

theorem find?_filter_not_self {α : Type} (l : List α) (p : α → Bool) :
    (l.filter (fun a => !(p a))).find? p = none := by
  induction l with
  | nil => rfl
  | cons a rest ih =>
      rw [List.filter_cons]
      by_cases hp : p a = true
      · simp only [hp, Bool.not_true, if_neg]
        exact ih
      · simp only [Bool.not_eq_true] at hp
        simp only [hp, Bool.not_false, if_pos]
        rw [List.find?_cons_of_neg _ (by simp [hp]), ih]

/-- Claim C6: `update_task` on an absent id is a silent no-op and
`delete_task` on an absent id returns `false` leaving the store unchanged,
on both backends; `delete_task` on a present id returns `true` and removes
exactly that task, on both backends.  (`t` is a task whose id is absent,
`idA` an absent id, `idP` a present id.) -/
theorem claim_C6 (s : Store) (q : SqliteStore) (t : Task) (idA idP : Int)
    (h1 : TaskStorage.get_task s t.id = none)
    (h2 : TaskStorage.get_task s idA = none)
    (h3 : q.rows.all (fun r => !(r.id == t.id)) = true)
    (h4 : q.rows.all (fun r => !(r.id == idA)) = true)
    (h5 : (TaskStorage.get_task s idP).isSome = true)
    (h6 : q.rows.any (fun r => r.id == idP) = true) :
    TaskStorage.update_task s t = s
    ∧ TaskStorage.delete_task s idA = (s, false)
    ∧ SQLiteTaskStorage.update_task q t = q
    ∧ SQLiteTaskStorage.delete_task q idA = (q, false)
    ∧ (TaskStorage.delete_task s idP).2 = true
    ∧ TaskStorage.get_task (TaskStorage.delete_task s idP).1 idP = none
    ∧ (∀ j : Int, j ≠ idP →
        TaskStorage.get_task (TaskStorage.delete_task s idP).1 j
          = TaskStorage.get_task s j)
    ∧ (SQLiteTaskStorage.delete_task q idP).2 = true
    ∧ SQLiteTaskStorage.get_task (SQLiteTaskStorage.delete_task q idP).1 idP
        = none
    ∧ (∀ j : Int, j ≠ idP →
        SQLiteTaskStorage.get_task (SQLiteTaskStorage.delete_task q idP).1 j
          = SQLiteTaskStorage.get_task q j) := by
  have hns1 : (dictGet t.id s.index).isSome = false := by
    rw [TaskStorage.get_task] at h1
    simp [h1]
  have hns2 : (dictGet idA s.index).isSome = false := by
    rw [TaskStorage.get_task] at h2
    simp [h2]
  refine ⟨?_, ?_, ?_, ?_, ?_, ?_, ?_, ?_, ?_, ?_⟩
  · rw [TaskStorage.update_task, hns1]
    simp
  · rw [TaskStorage.delete_task, hns2]
    simp
  · rw [SQLiteTaskStorage.update_task]
    have : q.rows.map (fun r =>
        if r.id == t.id then mkRow r.id (Task.to_row t) else r) = q.rows := by
      apply map_eq_self_of_fix
      intro r hr
      have := (List.all_eq_true.1 h3) r hr
      simp only [Bool.not_eq_true'] at this
      rw [this]
      simp
    rw [this]
  · rw [SQLiteTaskStorage.delete_task]
    have hf : q.rows.filter (fun r => !(r.id == idA)) = q.rows := by
      apply filter_eq_self_of_all
      intro r hr
      have := (List.all_eq_true.1 h4) r hr
      simpa using this
    have ha : q.rows.any (fun r => r.id == idA) = false := by
      rw [Bool.eq_false_iff]
      intro hany
      rcases List.any_eq_true.1 hany with ⟨r, hr, hpr⟩
      have := (List.all_eq_true.1 h4) r hr
      rw [hpr] at this
      simp at this
    rw [hf, ha]
  · rw [TaskStorage.get_task] at h5
    rw [TaskStorage.delete_task, if_pos h5]
  · rw [TaskStorage.get_task] at h5
    rw [TaskStorage.delete_task, TaskStorage.get_task, if_pos h5]
    exact dictGet_dictDel_self idP s.index
  · intro j hj
    rw [TaskStorage.get_task] at h5
    rw [TaskStorage.delete_task, TaskStorage.get_task, if_pos h5,
      TaskStorage.get_task]
    exact dictGet_dictDel_ne j idP s.index hj
  · rw [SQLiteTaskStorage.delete_task]
    exact h6
  · rw [SQLiteTaskStorage.delete_task, SQLiteTaskStorage.get_task]
    simp only
    rw [find?_filter_not_self]
    rfl
  · intro j hj
    rw [SQLiteTaskStorage.delete_task, SQLiteTaskStorage.get_task,
      SQLiteTaskStorage.get_task]
    simp only
    rw [find?_filter_of_imp]
    intro r hr
    have : r.id = j := by simpa using hr
    simp [this, hj]

/-- Witness for C6: a concrete one-task store on each backend, with the
absent id 2 and the present id 1. -/
theorem claim_C6_witness :
    (TaskStorage.get_task (Store.mk [(1, Task.new "T" 1 "a" "medium" [])] 2)
        (Task.new "T" 2 "b" "low" []).id = none)
    ∧ ((TaskStorage.update_task
          (Store.mk [(1, Task.new "T" 1 "a" "medium" [])] 2)
          (Task.new "T" 2 "b" "low" [])
        = Store.mk [(1, Task.new "T" 1 "a" "medium" [])] 2)
      ∧ (TaskStorage.delete_task
            (Store.mk [(1, Task.new "T" 1 "a" "medium" [])] 2) 2
          = (Store.mk [(1, Task.new "T" 1 "a" "medium" [])] 2, false))
      ∧ (SQLiteTaskStorage.update_task
            (SqliteStore.mk [rowOf (Task.new "T" 1 "a" "medium" [])] 1)
            (Task.new "T" 2 "b" "low" [])
          = SqliteStore.mk [rowOf (Task.new "T" 1 "a" "medium" [])] 1)
      ∧ (SQLiteTaskStorage.delete_task
            (SqliteStore.mk [rowOf (Task.new "T" 1 "a" "medium" [])] 1) 2
          = (SqliteStore.mk [rowOf (Task.new "T" 1 "a" "medium" [])] 1, false))
      ∧ (TaskStorage.delete_task
            (Store.mk [(1, Task.new "T" 1 "a" "medium" [])] 2) 1).2 = true
      ∧ TaskStorage.get_task
          (TaskStorage.delete_task
            (Store.mk [(1, Task.new "T" 1 "a" "medium" [])] 2) 1).1 1 = none
      ∧ (∀ j : Int, j ≠ 1 →
          TaskStorage.get_task
            (TaskStorage.delete_task
              (Store.mk [(1, Task.new "T" 1 "a" "medium" [])] 2) 1).1 j
            = TaskStorage.get_task
                (Store.mk [(1, Task.new "T" 1 "a" "medium" [])] 2) j)
      ∧ (SQLiteTaskStorage.delete_task
            (SqliteStore.mk [rowOf (Task.new "T" 1 "a" "medium" [])] 1) 1).2
          = true
      ∧ SQLiteTaskStorage.get_task
          (SQLiteTaskStorage.delete_task
            (SqliteStore.mk [rowOf (Task.new "T" 1 "a" "medium" [])] 1) 1).1 1
          = none
      ∧ (∀ j : Int, j ≠ 1 →
          SQLiteTaskStorage.get_task
            (SQLiteTaskStorage.delete_task
              (SqliteStore.mk [rowOf (Task.new "T" 1 "a" "medium" [])] 1) 1).1 j
            = SQLiteTaskStorage.get_task
                (SqliteStore.mk [rowOf (Task.new "T" 1 "a" "medium" [])] 1) j)) :=
  ⟨by decide, claim_C6 (Store.mk [(1, Task.new "T" 1 "a" "medium" [])] 2)
    (SqliteStore.mk [rowOf (Task.new "T" 1 "a" "medium" [])] 1)
    (Task.new "T" 2 "b" "low" []) 2 1
    (by decide) (by decide) (by decide) (by decide) (by decide) (by decide)⟩

/-! ## Completion lifecycle (claim C9) -/

/-- A completion-state mutation: `Task.mark_done` (models.py) or the
reactivation assignments of the `undo` command (cli.py). -/
inductive CompletionOp where
  | markDone (now : String)
  | undoDone
deriving Repr, DecidableEq

/-- Apply one completion-state mutation. -/
def applyCompletion (t : Task) : CompletionOp → Task
  | .markDone now => Task.mark_done t now
  | .undoDone => reactivate t

theorem completion_invariant (t : Task)
    (h : t.completed_at.isSome = t.completed) (ms : List CompletionOp) :
    (ms.foldl applyCompletion t).completed_at.isSome
      = (ms.foldl applyCompletion t).completed := by
  induction ms generalizing t with
  | nil => exact h
  | cons m rest ih =>
      cases m with
      | markDone now =>
          exact ih (Task.mark_done t now) rfl
      | undoDone =>
          exact ih (reactivate t) rfl

/-- Claim C9: for a task created by `add_task` and mutated only by
`mark_done` and reactivation, `completed_at` is non-null iff `completed` is
true; `mark_done` sets `completed` and a non-null `completed_at`, and
reactivation clears both. -/
theorem claim_C9 (now₀ txt priority now : String) (tags : List String)
    (id : Int) (ms : List CompletionOp) (t' : Task) :
    ((ms.foldl applyCompletion (Task.new now₀ id txt priority tags)).completed_at.isSome
      = (ms.foldl applyCompletion (Task.new now₀ id txt priority tags)).completed)
    ∧ (Task.mark_done t' now).completed = true
    ∧ (Task.mark_done t' now).completed_at = some now
    ∧ (reactivate t').completed = false
    ∧ (reactivate t').completed_at = none := by
  exact ⟨completion_invariant _ rfl ms, rfl, rfl, rfl, rfl⟩

/-! ## Text validation at creation (claim C8) -/

/-- Counterexample to claim C8: the `add` command accepts `"  hi  "` and
stores it verbatim — the stored text starts with whitespace, so it is not
stored with leading/trailing whitespace trimmed. -/
theorem claim_C8_counterexample :
    (cliAdd (Store.mk [] 1) "T" "  hi  " "medium" []).map
        (fun p => p.2.text) = some "  hi  "
    ∧ startsWithWS "  hi  " = true := by
  constructor <;> decide

/-- Claim C8 as amended: the `add` command rejects empty or all-whitespace
text and otherwise stores the text verbatim (hence with at least one
non-whitespace character), without trimming. -/
theorem claim_C8 (s : Store) (now text priority : String)
    (tags : List String) (h : pyBlank text = false) :
    cliAdd s now text priority tags
        = some (TaskStorage.add_task s now text priority tags)
    ∧ (TaskStorage.add_task s now text priority tags).2.text = text
    ∧ pyBlank ((TaskStorage.add_task s now text priority tags).2.text) = false
    ∧ (∀ text2 : String, pyBlank text2 = true →
        cliAdd s now text2 priority tags = none) := by
  refine ⟨?_, rfl, ?_, ?_⟩
  · rw [cliAdd, if_neg (by simp [h])]
  · exact h
  · intro text2 h2
    rw [cliAdd, if_pos h2]

/-- Witness for C8 at the concrete non-blank text `"  hi  "`. -/
theorem claim_C8_witness :
    pyBlank "  hi  " = false
    ∧ (cliAdd (Store.mk [] 1) "T" "  hi  " "medium" []
          = some (TaskStorage.add_task (Store.mk [] 1) "T" "  hi  " "medium" [])
      ∧ (TaskStorage.add_task (Store.mk [] 1) "T" "  hi  " "medium" []).2.text
          = "  hi  "
      ∧ pyBlank ((TaskStorage.add_task
            (Store.mk [] 1) "T" "  hi  " "medium" []).2.text) = false
      ∧ (∀ text2 : String, pyBlank text2 = true →
          cliAdd (Store.mk [] 1) "T" text2 "medium" [] = none)) :=
  ⟨by decide, claim_C8 (Store.mk [] 1) "T" "  hi  " "medium" [] (by decide)⟩

/-! ## Pagination (claim C7) -/

theorem pySlice_drop_take {α : Type} (l : List α) (start ps : Int)
    (h1 : 0 ≤ start) (h2 : 0 ≤ ps) :
    TaskStorage.pySlice l start (start + ps)
      = (l.drop start.toNat).take ps.toNat := by
  unfold TaskStorage.pySlice
  have hn1 : ¬ start < 0 := not_lt.2 h1
  have hn2 : ¬ start + ps < 0 := not_lt.2 (add_nonneg h1 h2)
  simp only [if_neg hn1, if_neg hn2]
  by_cases hsn : start ≤ (l.length : Int)
  · rw [min_eq_left hsn]
    by_cases hen : start + ps ≤ (l.length : Int)
    · rw [min_eq_left hen]
      congr 1
      omega
    · rw [min_eq_right (le_of_not_le hen)]
      rw [List.take_of_length_le (by rw [List.length_drop]; omega),
        List.take_of_length_le (by rw [List.length_drop]; omega)]
  · have hns : (l.length : Int) ≤ start := le_of_not_le hsn
    rw [min_eq_right hns, min_eq_right (by omega : (l.length : Int) ≤ start + ps)]
    rw [List.drop_eq_nil_of_le (by omega), List.drop_eq_nil_of_le (by omega)]
    simp

theorem pySlice_length_le {α : Type} (l : List α) (start ps : Int)
    (h1 : 0 ≤ start) (h2 : 0 ≤ ps) :
    (TaskStorage.pySlice l start (start + ps)).length ≤ ps.toNat := by
  rw [pySlice_drop_take l start ps h1 h2]
  exact List.length_take_le _ _

/-- The store obtained by adding 25 tasks with texts `"Task 0"` through
`"Task 24"` in order, default priority, to a fresh store. -/
def store25 : Store :=
  (List.range 25).foldl
    (fun s i =>
      (TaskStorage.add_task s "T" ("Task " ++ toString i) "medium" []).1)
    (Store.mk [] 1)

/-- Claim C7: over the 25 uniformly added tasks, pages 1 and 2 of size 10
each hold exactly 10 tasks with no task in common, their first elements are
"Task 0" and "Task 10", the active count is 25; and in general a
`list_tasks` result never exceeds `page_size` (1-based page, nonnegative
size). -/
theorem claim_C7 (s : Store) (page ps : Int) (h1 : 1 ≤ page) (h2 : 0 ≤ ps) :
    (TaskStorage.list_tasks store25 1 10).length = 10
    ∧ (TaskStorage.list_tasks store25 2 10).length = 10
    ∧ (TaskStorage.list_tasks store25 1 10).all
        (fun t => !((TaskStorage.list_tasks store25 2 10).contains t)) = true
    ∧ (TaskStorage.list_tasks store25 1 10).head?.map Task.text = some "Task 0"
    ∧ (TaskStorage.list_tasks store25 2 10).head?.map Task.text = some "Task 10"
    ∧ (TaskStorage.get_active_tasks store25).length = 25
    ∧ (TaskStorage.list_tasks s page ps).length ≤ ps.toNat := by
  refine ⟨by decide, by decide, by decide, by decide, by decide, by decide, ?_⟩
  rw [TaskStorage.list_tasks]
  exact pySlice_length_le _ _ _ (mul_nonneg (by omega) h2) h2

/-- Witness for C7 at page 1, page size 10. -/
theorem claim_C7_witness :
    ((1 : Int) ≤ 1 ∧ (0 : Int) ≤ 10)
    ∧ ((TaskStorage.list_tasks store25 1 10).length = 10
      ∧ (TaskStorage.list_tasks store25 2 10).length = 10
      ∧ (TaskStorage.list_tasks store25 1 10).all
          (fun t => !((TaskStorage.list_tasks store25 2 10).contains t)) = true
      ∧ (TaskStorage.list_tasks store25 1 10).head?.map Task.text
          = some "Task 0"
      ∧ (TaskStorage.list_tasks store25 2 10).head?.map Task.text
          = some "Task 10"
      ∧ (TaskStorage.get_active_tasks store25).length = 25
      ∧ (TaskStorage.list_tasks (Store.mk [] 1) 1 10).length ≤ (10 : Int).toNat) :=
  ⟨⟨by decide, by decide⟩,
    claim_C7 (Store.mk [] 1) 1 10 (by decide) (by decide)⟩

/-! ## Serialization round-trips (claim C4) -/

theorem seqMap_asStr (l : List String) :
    seqMap asStr (l.map jstr) = .ok l := by
  induction l with
  | nil => rfl
  | cons x xs ih => simp [seqMap, asStr, ih]

theorem seqMap_asInt (l : List Int) :
    seqMap asInt (l.map jint) = .ok l := by
  induction l with
  | nil => rfl
  | cons x xs ih => simp [seqMap, asInt, ih]

set_option maxHeartbeats 1600000 in
theorem from_dict_to_dict (t : Task) (now : String) :
    from_dict now (to_dict t) = .ok t := by
  obtain ⟨id, text, priority, completed, created_at, completed_at, tags,
    attachments, links, is_global, parent_id, subtasks, notes⟩ := t
  cases completed_at <;> cases parent_id <;>
    simp [from_dict, to_dict, addDefaults, dictGet, asInt, asStr, getStrD,
      getStrListD, seqMap_asStr, seqMap_asInt, fieldNames, pyIsInt, toIntVal]
  all_goals rfl

/-- Claim C4: `Task.from_dict (Task.to_dict t)` restores every field of any
task, and the SQLite row serialization restores every field of a stored
task (one read from the table, i.e. any `from_row` image). -/
theorem claim_C4 (t : Task) (now : String) (r : Row) :
    from_dict now (to_dict t) = .ok t
    ∧ Task.from_row (mkRow r.id (Task.to_row (Task.from_row r)))
        = Task.from_row r := by
  refine ⟨from_dict_to_dict t now, ?_⟩
  have hrt := tagsRT_splitTags r.tags
  unfold tagsRT at hrt
  by_cases hc : r.completed = 0 <;>
    simp [Task.from_row, Task.to_row, mkRow, hc, hrt]

/-! ## Legacy migration (claim C5) -/

/-- The concrete legacy document of the spec scenario:
`[{"id":5,"text":"legacy","priority":"low","tags":[],"completed":false}]`. -/
def legacyDoc : JVal :=
  jarr [jobj [("id", jint 5), ("text", jstr "legacy"),
    ("priority", jstr "low"), ("tags", jarr []), ("completed", jbool false)]]

/-- Claim C5: loading the concrete legacy document yields a store with
`get_task(5).text == "legacy"` whose next `add_task` allocates id 6, and the
file is rewritten as a current-shape object with `next_id` (here 6); and for
every legacy bare-array document the upgrade is idempotent — reading the
written document returns exactly the same data without a further rewrite, so
a second load yields the same store (or error) as the first. -/
theorem claim_C5 (now now2 text2 priority2 : String) (tags2 : List String) :
    ((load_index now (some legacyDoc)).toOption.bind
        (fun s => TaskStorage.get_task s 5)).map Task.text = some "legacy"
    ∧ ((load_index now (some legacyDoc)).toOption.map
        (fun s => (TaskStorage.add_task s now2 text2 priority2 tags2).2.id))
        = some 6
    ∧ (read_data (some legacyDoc)).2
        = some (jobj [("next_id", jint 6),
            ("tasks", jarr [jobj [("id", jint 5), ("text", jstr "legacy"),
              ("priority", jstr "low"), ("tags", jarr []),
              ("completed", jbool false)]])])
    ∧ (∀ xs : List JVal,
        read_data (some (upgradedDoc xs)) = ((read_data (some (jarr xs))).1, none))
    ∧ (∀ xs : List JVal,
        load_index now (some (upgradedDoc xs)) = load_index now (some (jarr xs))) :=
  ⟨rfl, rfl, rfl, fun _ => rfl, fun _ => rfl⟩

/-! ## Construction from arbitrary documents (claim C3) -/

/-- Whether the parsed document is a legacy array or an object carrying both
`tasks` and `next_id` (the two shapes `_read_data` recognizes); `none` is a
parse failure. -/
def isCurrentOrLegacy : Option JVal → Bool
  | none => false
  | some (jarr _) => true
  | some (jobj o) => (dictGet "tasks" o).isSome && (dictGet "next_id" o).isSome
  | some _ => false

/-- Counterexample to claim C3: the document
`{"next_id":1,"tasks":[{}]}` is neither a legacy array nor a well-formed
current-shape object (its entry lacks every field), yet construction does
not fall back to the empty store — `_load_index` raises (`t["id"]` is a
`KeyError`), so constructing the store does not succeed for every possible
file content. -/
theorem claim_C3_counterexample :
    isOkE (load_index "T" (some (jobj [("next_id", jint 1),
      ("tasks", jarr [jobj []])]))) = false := by decide

/-- Claim C3 as amended: construction never raises and yields the empty
store (`next_id=1`, no tasks) whenever the document is malformed JSON or is
neither an array nor an object with both `next_id` and `tasks` keys; but a
document that does match one of those two shapes while holding malformed
task entries makes construction raise (see the counterexample). -/
theorem claim_C3 (now : String) (raw : Option JVal)
    (h : isCurrentOrLegacy raw = false) :
    load_index now raw = .ok (Store.mk [] 1) := by
  cases raw with
  | none => rfl
  | some v =>
      cases v with
      | jnull => rfl
      | jbool b => rfl
      | jint n => rfl
      | jstr s => rfl
      | jarr xs => simp [isCurrentOrLegacy] at h
      | jobj o =>
          have h' : ((dictGet "tasks" o).isSome
              && (dictGet "next_id" o).isSome) = false := by
            simpa [isCurrentOrLegacy] using h
          simp [load_index, read_data, h']
          rfl

/-- Witness for C3 at a parse failure (corrupt file). -/
theorem claim_C3_witness :
    isCurrentOrLegacy none = false
    ∧ load_index "T" none = .ok (Store.mk [] 1) :=
  ⟨by decide, claim_C3 "T" none (by decide)⟩

/-! ## Duplicate ids in a legacy array (claim C10) -/

/-- The dict key an upgraded entry contributes: its `id` value when int-like
(after the upgrade every kept entry has one). -/
def entryIdOf (o : List (String × JVal)) : Option Int :=
  match dictGet "id" o with
  | some v => if pyIsInt v then some (toIntVal v) else none
  | none => none

theorem entryKV_obj (now : String) (o : List (String × JVal)) (k : Int)
    (t : Task) :
    entryKV now (jobj o) = .ok (k, t)
      ↔ (entryIdOf o = some k ∧ from_dict now o = .ok t) := by
  unfold entryKV entryIdOf
  cases hid : dictGet "id" o with
  | none => simp [hid, Bind.bind, Except.bind]
  | some v =>
      cases hfd : from_dict now o with
      | error e =>
          cases v <;> simp [hid, hfd, asInt, pyIsInt, toIntVal, Bind.bind,
            Except.bind, Functor.map, Except.map]
      | ok t2 =>
          cases v <;> simp [hid, hfd, asInt, pyIsInt, toIntVal, Bind.bind,
            Except.bind, Functor.map, Except.map, Pure.pure, Except.pure,
            Except.ok.injEq, Prod.mk.injEq, and_comm]

theorem getLast?_cons_of_ne_nil {α : Type} (a : α) (l : List α)
    (h : l ≠ []) : (a :: l).getLast? = l.getLast? := by
  cases l with
  | nil => exact absurd rfl h
  | cons b bs => exact List.getLast?_cons_cons

theorem buildIndex_lookup (now : String) (es : List (List (String × JVal))) :
    ∀ (d idx : List (Int × Task)),
      buildIndex now (es.map jobj) d = .ok idx → ∀ k : Int,
      dictGet k idx
        = (match (es.filter (fun o => entryIdOf o = some k)).getLast? with
           | some o => (from_dict now o).toOption
           | none => dictGet k d) := by
  induction es with
  | nil =>
      intro d idx h k
      simp only [List.map_nil, buildIndex] at h
      cases h
      simp
  | cons o rest ih =>
      intro d idx h k
      simp only [List.map_cons, buildIndex] at h
      cases hekv : entryKV now (jobj o) with
      | error e =>
          rw [hekv] at h
          have hfalse : (Except.error e : Except PyErr (List (Int × Task)))
              = Except.ok idx := h
          cases hfalse
      | ok kv =>
          obtain ⟨k₁, t₁⟩ := kv
          rw [hekv] at h
          obtain ⟨hid, hfd⟩ := (entryKV_obj now o k₁ t₁).1 hekv
          have hrec := ih (dictSet k₁ t₁ d) idx h k
          rw [hrec]
          by_cases hmatch : entryIdOf o = some k
          · have hk : k₁ = k := by
              rw [hid] at hmatch
              exact Option.some_inj.1 hmatch
            subst hk
            rw [List.filter_cons, if_pos (by simp [hmatch])]
            cases hlast : (rest.filter (fun o => entryIdOf o = some k₁)).getLast? with
            | some o2 =>
                rw [getLast?_cons_of_ne_nil o _
                  (by intro hnil; rw [hnil] at hlast; cases hlast), hlast]
            | none =>
                have hnil : rest.filter (fun o => entryIdOf o = some k₁) = [] :=
                  List.getLast?_eq_none_iff.1 hlast
                rw [hnil]
                show dictGet k₁ (dictSet k₁ t₁ d) = (from_dict now o).toOption
                rw [dictGet_dictSet_self k₁ t₁ d, hfd]
                rfl
          · have hk : k₁ ≠ k := by
              intro hkk
              rw [hkk] at hid
              exact hmatch hid
            rw [List.filter_cons, if_neg (by simp [hmatch])]
            cases hlast : (rest.filter (fun o => entryIdOf o = some k)).getLast? with
            | some o2 => rfl
            | none => exact dictGet_dictSet_ne k k₁ t₁ d (Ne.symm hk)

theorem nodup_keys_dictSet {α β : Type} [DecidableEq α] (k : α) (v : β)
    (l : List (α × β)) (h : (l.map Prod.fst).Nodup) :
    ((dictSet k v l).map Prod.fst).Nodup := by
  by_cases hm : k ∈ l.map Prod.fst
  · rw [keys_dictSet_of_mem k v l hm]; exact h
  · rw [dictSet_of_not_mem k v l hm]
    simp [List.nodup_append, h, hm]

theorem buildIndex_nodup (now : String) (ts : List JVal) :
    ∀ (d idx : List (Int × Task)), (d.map Prod.fst).Nodup →
      buildIndex now ts d = .ok idx → (idx.map Prod.fst).Nodup := by
  induction ts with
  | nil =>
      intro d idx hd h
      simp only [buildIndex] at h
      cases h
      exact hd
  | cons t rest ih =>
      intro d idx hd h
      simp only [buildIndex] at h
      cases hekv : entryKV now t with
      | error e =>
          rw [hekv] at h
          have hfalse : (Except.error e : Except PyErr (List (Int × Task)))
              = Except.ok idx := h
          cases hfalse
      | ok kv =>
          rw [hekv] at h
          exact ih (dictSet kv.1 kv.2 d) idx (nodup_keys_dictSet kv.1 kv.2 d hd) h

/-- Claim C10: when the JSON store is built from a legacy array in which
several entries end up bearing the same id (explicit or synthetic), the
index keeps exactly one task per id — the one from the last entry in array
order with that id; earlier entries with that id are silently absent. -/
theorem claim_C10 (now : String) (xs : List JVal) (s : Store)
    (h : load_index now (some (jarr xs)) = .ok s) :
    (storeKeys s).Nodup
    ∧ ∀ k : Int,
        TaskStorage.get_task s k
          = (((upgradeEntries xs).filter
                (fun o => entryIdOf o = some k)).getLast?).bind
              (fun o => (from_dict now o).toOption) := by
  have hread : load_index now (some (jarr xs))
      = (do
          let idx ← buildIndex now ((upgradeEntries xs).map jobj) []
          let n ← pyNextId (jint (upgradeNextId xs))
          pure (Store.mk idx n)) := rfl
  rw [hread] at h
  cases hbi : buildIndex now ((upgradeEntries xs).map jobj) [] with
  | error e =>
      rw [hbi] at h
      have hfalse : (Except.error e : Except PyErr Store) = Except.ok s := h
      cases hfalse
  | ok idx =>
      rw [hbi] at h
      have hok : (Except.ok (Store.mk idx (upgradeNextId xs)) :
          Except PyErr Store) = Except.ok s := h
      have hs : s = Store.mk idx (upgradeNextId xs) := (Except.ok.inj hok).symm
      subst hs
      constructor
      · exact buildIndex_nodup now _ [] idx (by simp) hbi
      · intro k
        have := buildIndex_lookup now (upgradeEntries xs) [] idx hbi k
        rw [TaskStorage.get_task]
        simp only at this ⊢
        rw [this]
        cases (upgradeEntries xs).filter (fun o => entryIdOf o = some k) |>.getLast? with
        | some o => rfl
        | none => simp [dictGet]

/-- Witness for C10: a legacy array whose first entry has explicit id 2 and
whose second entry (position 2) lacks an id, so both end up with id 2; the
store keeps only the second entry's task. -/
theorem claim_C10_witness :
    (load_index "T" (some (jarr [jobj [("id", jint 2), ("text", jstr "a")],
        jobj [("text", jstr "b")]]))
      = .ok (Store.mk [(2, Task.mk 2 "b" "medium" false "T" none [] [] []
          false none [] "")] 3))
    ∧ ((storeKeys (Store.mk [(2, Task.mk 2 "b" "medium" false "T" none [] []
          [] false none [] "")] 3)).Nodup
      ∧ ∀ k : Int,
          TaskStorage.get_task (Store.mk [(2, Task.mk 2 "b" "medium" false "T"
              none [] [] [] false none [] "")] 3) k
            = (((upgradeEntries [jobj [("id", jint 2), ("text", jstr "a")],
                  jobj [("text", jstr "b")]]).filter
                  (fun o => entryIdOf o = some k)).getLast?).bind
                (fun o => (from_dict "T" o).toOption)) :=
  ⟨rfl, claim_C10 "T"
    [jobj [("id", jint 2), ("text", jstr "a")], jobj [("text", jstr "b")]]
    (Store.mk [(2, Task.mk 2 "b" "medium" false "T" none [] [] [] false none
      [] "")] 3) rfl⟩

/-! ## Backend equivalence (claim C1)

The JSON and SQLite stores are run from their fresh states over the same
call sequence, and every observation of the backend contract is compared.
The correspondence: the SQLite table holds exactly the rows of the JSON
index (in ascending id order), and the AUTOINCREMENT sequence is one behind
the JSON `_next_id`. -/

/-- A task whose fields survive the SQLite row serialization: its tag list
round-trips through the comma-joined column, and the fields without a table
column hold their dataclass defaults. -/
def goodTask (t : Task) : Prop :=
  tagsRT t.tags ∧ t.attachments = [] ∧ t.links = [] ∧ t.is_global = false
    ∧ t.parent_id = none ∧ t.subtasks = [] ∧ t.notes = ""

instance (t : Task) : Decidable (goodTask t) := by
  unfold goodTask; infer_instance

/-- A call whose arguments the SQLite schema can represent faithfully. -/
def goodOp : Op → Prop
  | .add _ _ _ tags => tagsRT tags
  | .update t => goodTask t
  | .del _ => True

instance (o : Op) : Decidable (goodOp o) := by
  cases o <;> (unfold goodOp; infer_instance)

/-- Per-call return values of a call sequence on the JSON store (`add_task`
returns the new task, `delete_task` a boolean, `update_task` nothing). -/
def traceJ : Store → List Op → List (Option (Task ⊕ Bool))
  | _, [] => []
  | s, o :: rest =>
      (match o with
       | .add now text priority tags =>
           some (Sum.inl (TaskStorage.add_task s now text priority tags).2)
       | .update _ => none
       | .del id => some (Sum.inr (TaskStorage.delete_task s id).2))
        :: traceJ (stepJ s o) rest

/-- Per-call return values of a call sequence on the SQLite store. -/
def traceQ : SqliteStore → List Op → List (Option (Task ⊕ Bool))
  | _, [] => []
  | q, o :: rest =>
      (match o with
       | .add now text priority tags =>
           some (Sum.inl (SQLiteTaskStorage.add_task q now text priority tags).2)
       | .update _ => none
       | .del id => some (Sum.inr (SQLiteTaskStorage.delete_task q id).2))
        :: traceQ (stepQ q o) rest

/-- The simulation relation between a JSON store and a SQLite store. -/
def Inv (s : Store) (q : SqliteStore) : Prop :=
  q.rows = s.index.map (fun kv => rowOf kv.2)
  ∧ (∀ kv ∈ s.index,
      kv.1 = kv.2.id ∧ goodTask kv.2 ∧ 0 < kv.2.id ∧ kv.2.id ≤ q.seq)
  ∧ (s.index.map Prod.fst).Pairwise (· < ·)
  ∧ s.next_id = q.seq + 1
  ∧ 0 ≤ q.seq

theorem from_row_rowOf (t : Task) (h : goodTask t) :
    Task.from_row (rowOf t) = t := by
  obtain ⟨h1, h2, h3, h4, h5, h6, h7⟩ := h
  unfold tagsRT at h1
  cases hc : t.completed <;>
    · cases t
      simp_all [Task.from_row, rowOf, mkRow, Task.to_row]

theorem goodTask_new (now : String) (id : Int) (text priority : String)
    (tags : List String) (h : tagsRT tags) :
    goodTask (Task.new now id text priority tags) :=
  ⟨h, rfl, rfl, rfl, rfl, rfl, rfl⟩

theorem dictSet_eq_map {α β : Type} [DecidableEq α] (k : α) (v : β)
    (l : List (α × β)) (hnd : (l.map Prod.fst).Nodup)
    (hm : k ∈ l.map Prod.fst) :
    dictSet k v l = l.map (fun kv => if kv.1 = k then (k, v) else kv) := by
  induction l with
  | nil => simp at hm
  | cons kv rest ih =>
      obtain ⟨k1, v1⟩ := kv
      simp only [List.map_cons, List.nodup_cons] at hnd
      by_cases h1 : k1 = k
      · subst h1
        rw [dictSet, if_pos rfl]
        have hrest : rest.map (fun kv => if kv.1 = k1 then (k1, v) else kv)
            = rest := by
          apply map_eq_self_of_fix
          intro a ha
          have hne : a.1 ≠ k1 := by
            intro he
            exact hnd.1 (he ▸ List.mem_map_of_mem Prod.fst ha)
          simp [hne]
        simp [hrest]
      · rw [dictSet, if_neg h1]
        simp only [List.map_cons, if_neg h1]
        have hm' : k ∈ rest.map Prod.fst := by
          rcases List.mem_cons.1 hm with he | he
          · exact absurd he.symm h1
          · exact he
        rw [ih hnd.2 hm']

theorem update_rows_align (l : List (Int × Task)) (t : Task)
    (h : ∀ kv ∈ l, kv.1 = kv.2.id) :
    (l.map (fun kv => rowOf kv.2)).map
        (fun r => if r.id == t.id then mkRow r.id (Task.to_row t) else r)
      = (l.map (fun kv => if kv.1 = t.id then (t.id, t) else kv)).map
          (fun kv => rowOf kv.2) := by
  induction l with
  | nil => rfl
  | cons kv rest ih =>
      have hid := h kv (List.mem_cons_self kv rest)
      simp only [List.map_cons]
      congr 1
      · by_cases hk : kv.1 = t.id
        · have h2 : kv.2.id = t.id := by rw [← hid]; exact hk
          have hr : (rowOf kv.2).id = t.id := h2
          simp [hr, hk, rowOf, h2, mkRow]
        · have h2 : kv.2.id ≠ t.id := by rw [← hid]; exact hk
          have hr : (rowOf kv.2).id = kv.2.id := rfl
          simp [hr, h2, hk]
      · exact ih (fun kv hkv => h kv (List.mem_cons_of_mem _ hkv))

theorem del_rows_align (l : List (Int × Task)) (id : Int)
    (h : ∀ kv ∈ l, kv.1 = kv.2.id) :
    (l.map (fun kv => rowOf kv.2)).filter (fun r => !(r.id == id))
      = (dictDel id l).map (fun kv => rowOf kv.2) := by
  induction l with
  | nil => rfl
  | cons kv rest ih =>
      have hid := h kv (List.mem_cons_self kv rest)
      have ihr := ih (fun kv hkv => h kv (List.mem_cons_of_mem _ hkv))
      simp only [List.map_cons, List.filter_cons]
      by_cases hk : kv.1 = id
      · have h2 : (rowOf kv.2).id = id := by
          show kv.2.id = id
          rw [← hid]; exact hk
        rw [dictDel, if_pos hk]
        simp [h2, ihr]
      · have h2 : (rowOf kv.2).id ≠ id := by
          show kv.2.id ≠ id
          rw [← hid]; exact hk
        rw [dictDel, if_neg hk]
        simp [h2, ihr]

theorem dictDel_subset {α β : Type} [DecidableEq α] (k : α)
    (l : List (α × β)) : ∀ kv ∈ dictDel k l, kv ∈ l := by
  induction l with
  | nil => intro kv h; simp [dictDel] at h
  | cons kv0 rest ih =>
      intro kv h
      obtain ⟨k1, v1⟩ := kv0
      by_cases h1 : k1 = k
      · rw [dictDel, if_pos h1] at h
        exact List.mem_cons_of_mem _ (ih kv h)
      · rw [dictDel, if_neg h1] at h
        rcases List.mem_cons.1 h with he | he
        · exact he ▸ List.mem_cons_self _ _
        · exact List.mem_cons_of_mem _ (ih kv he)

theorem Inv_step (s : Store) (q : SqliteStore) (o : Op) (hI : Inv s q)
    (hg : goodOp o) : Inv (stepJ s o) (stepQ q o) := by
  obtain ⟨hrows, hent, hpw, hnext, hseq⟩ := hI
  cases o with
  | add now text priority tags =>
      have htags : tagsRT tags := hg
      have hnm : s.next_id ∉ s.index.map Prod.fst := by
        intro hm
        rcases List.mem_map.1 hm with ⟨kv, hkv, hfst⟩
        have := (hent kv hkv).2.2.2
        rw [(hent kv hkv).1] at hfst
        omega
      have hset : dictSet s.next_id
          (Task.new now s.next_id text priority tags) s.index
          = s.index ++ [(s.next_id, Task.new now s.next_id text priority tags)] :=
        dictSet_of_not_mem _ _ _ hnm
      refine ⟨?_, ?_, ?_, ?_, ?_⟩
      · show q.rows ++ [mkRow (q.seq + 1) (Task.to_row (Task.new now 0 text priority tags))]
          = _
        rw [show stepJ s (Op.add now text priority tags)
            = Store.mk (s.index ++ [(s.next_id, Task.new now s.next_id text priority tags)])
                (s.next_id + 1) from by
          simp [stepJ, TaskStorage.add_task, hset]]
        rw [List.map_append, hrows]
        simp only [List.map_cons, List.map_nil]
        congr 2
        show mkRow (q.seq + 1) _ = rowOf (Task.new now s.next_id text priority tags)
        rw [rowOf, hnext]
        rfl
      · intro kv hkv
        rw [show (stepJ s (Op.add now text priority tags)).index
            = s.index ++ [(s.next_id, Task.new now s.next_id text priority tags)] from by
          simp [stepJ, TaskStorage.add_task, hset]] at hkv
        have hseq' : (stepQ q (Op.add now text priority tags)).seq = q.seq + 1 := rfl
        rw [hseq']
        rcases List.mem_append.1 hkv with hkv | hkv
        · obtain ⟨e1, e2, e3, e4⟩ := hent kv hkv
          exact ⟨e1, e2, e3, by omega⟩
        · simp only [List.mem_singleton] at hkv
          subst hkv
          refine ⟨rfl, goodTask_new now s.next_id text priority tags htags, ?_, ?_⟩
          · show 0 < s.next_id
            omega
          · show s.next_id ≤ q.seq + 1
            omega
      · rw [show (stepJ s (Op.add now text priority tags)).index
            = s.index ++ [(s.next_id, Task.new now s.next_id text priority tags)] from by
          simp [stepJ, TaskStorage.add_task, hset]]
        rw [List.map_append]
        rw [List.pairwise_append]
        refine ⟨hpw, by simp, ?_⟩
        intro a ha b hb
        simp only [List.map_cons, List.map_nil, List.mem_singleton] at hb
        subst hb
        rcases List.mem_map.1 ha with ⟨kv, hkv, hfst⟩
        obtain ⟨e1, _, _, e4⟩ := hent kv hkv
        subst hfst
        rw [e1]
        omega
      · show s.next_id + 1 = (q.seq + 1) + 1
        omega
      · show (0 : Int) ≤ q.seq + 1
        omega
  | update t =>
      have hgt : goodTask t := hg
      by_cases hm : t.id ∈ s.index.map Prod.fst
      · have hnd : (s.index.map Prod.fst).Nodup :=
          hpw.imp (fun hab => ne_of_lt hab)
        have hJ : stepJ s (Op.update t)
            = Store.mk (s.index.map (fun kv => if kv.1 = t.id then (t.id, t) else kv))
                s.next_id := by
          simp only [stepJ, TaskStorage.update_task,
            (dictGet_isSome_iff t.id s.index).2 hm, if_pos]
          rw [dictSet_eq_map t.id t s.index hnd hm]
        have hkeys : (s.index.map (fun kv => if kv.1 = t.id then (t.id, t) else kv)).map
            Prod.fst = s.index.map Prod.fst := by
          rw [List.map_map]
          apply List.map_congr_left
          intro kv hkv
          by_cases hk : kv.1 = t.id <;> simp [hk]
        obtain ⟨kv0, hkv0, hf0⟩ := List.mem_map.1 hm
        obtain ⟨e1, _, e3, e4⟩ := hent kv0 hkv0
        refine ⟨?_, ?_, ?_, ?_, ?_⟩
        · show q.rows.map _ = _
          rw [hJ, hrows, update_rows_align s.index t (fun kv hkv => (hent kv hkv).1)]
        · intro kv hkv
          rw [hJ] at hkv
          rcases List.mem_map.1 hkv with ⟨kv1, hkv1, heq⟩
          by_cases hk : kv1.1 = t.id
          · rw [if_pos hk] at heq
            subst heq
            refine ⟨rfl, hgt, ?_, ?_⟩
            · show (0 : Int) < t.id
              rw [← hf0, e1] at *
              omega
            · show t.id ≤ (stepQ q (Op.update t)).seq
              show t.id ≤ q.seq
              rw [← hf0, e1] at *
              omega
          · rw [if_neg hk] at heq
            subst heq
            exact hent kv1 hkv1
        · rw [hJ]
          show ((s.index.map _).map Prod.fst).Pairwise (· < ·)
          rw [hkeys]
          exact hpw
        · rw [hJ]; exact hnext
        · exact hseq
      · have hJ : stepJ s (Op.update t) = s := by
          simp only [stepJ, TaskStorage.update_task]
          rw [if_neg]
          simp only [Bool.not_eq_true]
          rw [Bool.eq_false_iff]
          intro hsome
          exact hm ((dictGet_isSome_iff t.id s.index).1 hsome)
        have hQ : stepQ q (Op.update t) = q := by
          simp only [stepQ, SQLiteTaskStorage.update_task]
          have : q.rows.map (fun r =>
              if r.id == t.id then mkRow r.id (Task.to_row t) else r) = q.rows := by
            apply map_eq_self_of_fix
            intro r hr
            rw [hrows] at hr
            rcases List.mem_map.1 hr with ⟨kv, hkv, heq⟩
            have hne : r.id ≠ t.id := by
              rw [← heq]
              show kv.2.id ≠ t.id
              intro he
              exact hm (((hent kv hkv).1 ▸ he) ▸ List.mem_map_of_mem Prod.fst hkv)
            simp [hne]
          rw [this]
        rw [hJ, hQ]
        exact ⟨hrows, hent, hpw, hnext, hseq⟩
  | del id =>
      by_cases hm : id ∈ s.index.map Prod.fst
      · have hJ : stepJ s (Op.del id)
            = Store.mk (dictDel id s.index) s.next_id := by
          simp only [stepJ, TaskStorage.delete_task,
            (dictGet_isSome_iff id s.index).2 hm, if_pos]
        refine ⟨?_, ?_, ?_, ?_, ?_⟩
        · show q.rows.filter _ = _
          rw [hJ, hrows, del_rows_align s.index id (fun kv hkv => (hent kv hkv).1)]
        · intro kv hkv
          rw [hJ] at hkv
          exact hent kv (dictDel_subset id s.index kv hkv)
        · rw [hJ]
          show ((dictDel id s.index).map Prod.fst).Pairwise (· < ·)
          rw [keys_dictDel]
          exact hpw.sublist (List.filter_sublist _)
        · rw [hJ]; exact hnext
        · exact hseq
      · have hJ : stepJ s (Op.del id) = s := by
          simp only [stepJ, TaskStorage.delete_task]
          rw [if_neg]
          simp only [Bool.not_eq_true]
          rw [Bool.eq_false_iff]
          intro hsome
          exact hm ((dictGet_isSome_iff id s.index).1 hsome)
        have hQ : stepQ q (Op.del id) = q := by
          simp only [stepQ, SQLiteTaskStorage.delete_task]
          have : q.rows.filter (fun r => !(r.id == id)) = q.rows := by
            apply filter_eq_self_of_all
            intro r hr
            rw [hrows] at hr
            rcases List.mem_map.1 hr with ⟨kv, hkv, heq⟩
            have hne : r.id ≠ id := by
              rw [← heq]
              show kv.2.id ≠ id
              intro he
              exact hm (((hent kv hkv).1 ▸ he) ▸ List.mem_map_of_mem Prod.fst hkv)
            simp [hne]
          rw [this]
        rw [hJ, hQ]
        exact ⟨hrows, hent, hpw, hnext, hseq⟩

theorem map_from_row_rowOf (l : List (Int × Task))
    (h : ∀ kv ∈ l, goodTask kv.2) :
    (l.map (fun kv => rowOf kv.2)).map Task.from_row = l.map Prod.snd := by
  induction l with
  | nil => rfl
  | cons kv rest ih =>
      simp only [List.map_cons]
      rw [from_row_rowOf kv.2 (h kv (List.mem_cons_self kv rest)),
        ih (fun kv hkv => h kv (List.mem_cons_of_mem _ hkv))]

theorem find_align (l : List (Int × Task))
    (h : ∀ kv ∈ l, kv.1 = kv.2.id ∧ goodTask kv.2) (id : Int) :
    ((l.map (fun kv => rowOf kv.2)).find? (fun r => r.id == id)).map
        Task.from_row = dictGet id l := by
  induction l with
  | nil => rfl
  | cons kv rest ih =>
      obtain ⟨h1, h2⟩ := h kv (List.mem_cons_self kv rest)
      have ihr := ih (fun kv hkv => h kv (List.mem_cons_of_mem _ hkv))
      simp only [List.map_cons]
      by_cases hk : kv.1 = id
      · have hr : ((rowOf kv.2).id == id) = true := by
          show (kv.2.id == id) = true
          rw [← h1, hk]
          simp
        have hfind : List.find? (fun r => r.id == id)
            (rowOf kv.2 :: rest.map (fun kv => rowOf kv.2))
            = some (rowOf kv.2) := by
          simp [List.find?_cons, hr]
        rw [hfind, dictGet, if_pos hk]
        simp [from_row_rowOf kv.2 h2]
      · have hr : ((rowOf kv.2).id == id) = false := by
          show (kv.2.id == id) = false
          rw [← h1]
          simp [hk]
        have hfind : List.find? (fun r => r.id == id)
            (rowOf kv.2 :: rest.map (fun kv => rowOf kv.2))
            = List.find? (fun r => r.id == id)
                (rest.map (fun kv => rowOf kv.2)) := by
          simp [List.find?_cons, hr]
        rw [hfind, dictGet, if_neg hk, ihr]

theorem active_align (l : List (Int × Task))
    (h : ∀ kv ∈ l, goodTask kv.2) :
    ((l.map (fun kv => rowOf kv.2)).filter (fun r => r.completed == 0)).map
        Task.from_row
      = (l.map Prod.snd).filter (fun t => !t.completed) := by
  induction l with
  | nil => rfl
  | cons kv rest ih =>
      have ihr := ih (fun kv hkv => h kv (List.mem_cons_of_mem _ hkv))
      simp only [List.map_cons, List.filter_cons]
      cases hc : kv.2.completed with
      | false =>
          have hr : ((rowOf kv.2).completed == 0) = true := by
            show ((if kv.2.completed then 1 else 0 : Int) == 0) = true
            rw [hc]
            simp
          simpa [hr, hc,
            from_row_rowOf kv.2 (h kv (List.mem_cons_self kv rest))] using ihr
      | true =>
          have hr : ((rowOf kv.2).completed == 0) = false := by
            show ((if kv.2.completed then 1 else 0 : Int) == 0) = false
            rw [hc]
            simp
          simpa [hr, hc] using ihr

theorem completed_align (l : List (Int × Task))
    (h : ∀ kv ∈ l, goodTask kv.2) :
    ((l.map (fun kv => rowOf kv.2)).filter (fun r => r.completed == 1)).map
        Task.from_row
      = (l.map Prod.snd).filter (fun t => t.completed) := by
  induction l with
  | nil => rfl
  | cons kv rest ih =>
      have ihr := ih (fun kv hkv => h kv (List.mem_cons_of_mem _ hkv))
      simp only [List.map_cons, List.filter_cons]
      cases hc : kv.2.completed with
      | true =>
          have hr : ((rowOf kv.2).completed == 1) = true := by
            show ((if kv.2.completed then 1 else 0 : Int) == 1) = true
            rw [hc]
            simp
          simpa [hr, hc,
            from_row_rowOf kv.2 (h kv (List.mem_cons_self kv rest))] using ihr
      | false =>
          have hr : ((rowOf kv.2).completed == 1) = false := by
            show ((if kv.2.completed then 1 else 0 : Int) == 1) = false
            rw [hc]
            simp
          simpa [hr, hc] using ihr

theorem any_align (l : List (Int × Task))
    (h : ∀ kv ∈ l, kv.1 = kv.2.id) (id : Int) :
    (l.map (fun kv => rowOf kv.2)).any (fun r => r.id == id)
      = (dictGet id l).isSome := by
  induction l with
  | nil => rfl
  | cons kv rest ih =>
      have h1 := h kv (List.mem_cons_self kv rest)
      have ihr := ih (fun kv hkv => h kv (List.mem_cons_of_mem _ hkv))
      simp only [List.map_cons, List.any_cons]
      by_cases hk : kv.1 = id
      · have hr : ((rowOf kv.2).id == id) = true := by
          show (kv.2.id == id) = true
          rw [← h1, hk]
          simp
        rw [hr, dictGet, if_pos hk]
        simp
      · have hr : ((rowOf kv.2).id == id) = false := by
          show (kv.2.id == id) = false
          rw [← h1]
          simp [hk]
        rw [hr, dictGet, if_neg hk, ihr]
        simp

theorem ids_align (l : List (Int × Task))
    (h : ∀ kv ∈ l, kv.1 = kv.2.id) :
    (l.map Prod.snd).map Task.id = l.map Prod.fst := by
  induction l with
  | nil => rfl
  | cons kv rest ih =>
      simp only [List.map_cons]
      rw [← h kv (List.mem_cons_self kv rest),
        ih (fun kv hkv => h kv (List.mem_cons_of_mem _ hkv))]

theorem Inv_run (ops : List Op) :
    ∀ (s : Store) (q : SqliteStore), Inv s q → (∀ o ∈ ops, goodOp o) →
      Inv (runJ s ops) (runQ q ops) := by
  induction ops with
  | nil => intro s q hI _; exact hI
  | cons o rest ih =>
      intro s q hI hg
      exact ih (stepJ s o) (stepQ q o)
        (Inv_step s q o hI (hg o (List.mem_cons_self o rest)))
        (fun o2 ho2 => hg o2 (List.mem_cons_of_mem _ ho2))

theorem Inv_init : Inv (Store.mk [] 1) (SqliteStore.mk [] 0) :=
  ⟨rfl, by simp, by simp, rfl, le_refl 0⟩

theorem trace_eq (ops : List Op) :
    ∀ (s : Store) (q : SqliteStore), Inv s q → (∀ o ∈ ops, goodOp o) →
      traceJ s ops = traceQ q ops := by
  induction ops with
  | nil => intro s q _ _; rfl
  | cons o rest ih =>
      intro s q hI hg
      obtain ⟨hrows, hent, hpw, hnext, hseq⟩ := hI
      have htail := ih (stepJ s o) (stepQ q o)
        (Inv_step s q o ⟨hrows, hent, hpw, hnext, hseq⟩
          (hg o (List.mem_cons_self o rest)))
        (fun o2 ho2 => hg o2 (List.mem_cons_of_mem _ ho2))
      cases o with
      | add now text priority tags =>
          simp only [traceJ, traceQ, htail]
          have htask : (TaskStorage.add_task s now text priority tags).2
              = (SQLiteTaskStorage.add_task q now text priority tags).2 := by
            show Task.new now s.next_id text priority tags
              = { Task.new now 0 text priority tags with id := q.seq + 1 }
            rw [hnext]
            rfl
          rw [htask]
      | update t => simp only [traceJ, traceQ, htail]
      | del id =>
          simp only [traceJ, traceQ, htail]
          have hJb : (TaskStorage.delete_task s id).2
              = (dictGet id s.index).isSome := by
            by_cases hk : (dictGet id s.index).isSome = true
            · simp [TaskStorage.delete_task, hk]
            · rw [Bool.not_eq_true] at hk
              simp [TaskStorage.delete_task, hk]
          have hbb : (TaskStorage.delete_task s id).2
              = (SQLiteTaskStorage.delete_task q id).2 := by
            rw [hJb]
            show _ = q.rows.any (fun r => r.id == id)
            rw [hrows, any_align s.index (fun kv hkv => (hent kv hkv).1) id]
          rw [hbb]

theorem slice_align (l : List (Int × Task)) (h : ∀ kv ∈ l, goodTask kv.2)
    (a b : Nat) :
    (((l.map (fun kv => rowOf kv.2)).drop a).take b).map Task.from_row
      = ((l.map Prod.snd).drop a).take b := by
  rw [← List.map_drop, ← List.map_take]
  rw [map_from_row_rowOf _ (fun kv hkv => h kv
    (((List.take_sublist _ _).trans (List.drop_sublist _ _)).subset hkv))]
  rw [List.map_take, List.map_drop]

/-- Counterexample to claim C1: after `add_task("X","high",["a,b"])` on both
fresh backends, the observable task sets differ — the JSON store returns the
tag list `["a,b"]` while the SQLite store re-splits its comma-joined tags
column into `["a","b"]`. -/
theorem claim_C1_counterexample :
    TaskStorage.load_tasks (runJ (Store.mk [] 1) [Op.add "T" "X" "high" ["a,b"]])
      ≠ SQLiteTaskStorage.load_tasks
          (runQ (SqliteStore.mk [] 0) [Op.add "T" "X" "high" ["a,b"]]) := by
  decide

/-- Claim C1 as amended: for every call sequence from the operation table in
which every tag list survives the comma round-trip of the SQLite tags column
and every task passed to `update_task` holds defaults in the fields the
SQLite table does not persist, the two backends — run from their fresh
states — agree on every observation: `load_tasks`, `get_task`,
`get_active_tasks`, `get_completed_tasks`, `list_tasks`, `iter_tasks`
(1-based pages, nonnegative sizes/offsets), and the per-call return values
of `add_task` and `delete_task`; moreover all ids are positive and distinct.
A tag containing a comma breaks the equivalence (see the counterexample);
the backends even allocate identical ids (JSON `_next_id` and SQLite
AUTOINCREMENT both hand out one more than the largest id ever allocated). -/
theorem claim_C1 (ops : List Op) (hg : ∀ o ∈ ops, goodOp o)
    (id page ps st ct : Int) (hp : 1 ≤ page) (hps : 0 ≤ ps)
    (hst : 0 ≤ st) (hct : 0 ≤ ct) :
    TaskStorage.load_tasks (runJ (Store.mk [] 1) ops)
        = SQLiteTaskStorage.load_tasks (runQ (SqliteStore.mk [] 0) ops)
    ∧ TaskStorage.get_task (runJ (Store.mk [] 1) ops) id
        = SQLiteTaskStorage.get_task (runQ (SqliteStore.mk [] 0) ops) id
    ∧ TaskStorage.get_active_tasks (runJ (Store.mk [] 1) ops)
        = SQLiteTaskStorage.get_active_tasks (runQ (SqliteStore.mk [] 0) ops)
    ∧ TaskStorage.get_completed_tasks (runJ (Store.mk [] 1) ops)
        = SQLiteTaskStorage.get_completed_tasks (runQ (SqliteStore.mk [] 0) ops)
    ∧ TaskStorage.list_tasks (runJ (Store.mk [] 1) ops) page ps
        = SQLiteTaskStorage.list_tasks (runQ (SqliteStore.mk [] 0) ops) page ps
    ∧ TaskStorage.iter_tasks (runJ (Store.mk [] 1) ops) st ct
        = SQLiteTaskStorage.iter_tasks (runQ (SqliteStore.mk [] 0) ops) st ct
    ∧ traceJ (Store.mk [] 1) ops = traceQ (SqliteStore.mk [] 0) ops
    ∧ (∀ t ∈ TaskStorage.load_tasks (runJ (Store.mk [] 1) ops), 0 < t.id)
    ∧ ((TaskStorage.load_tasks (runJ (Store.mk [] 1) ops)).map Task.id).Nodup := by
  obtain ⟨hrows, hent, hpw, hnext, hseq⟩ :=
    Inv_run ops (Store.mk [] 1) (SqliteStore.mk [] 0) Inv_init hg
  have hgoods : ∀ kv ∈ (runJ (Store.mk [] 1) ops).index, goodTask kv.2 :=
    fun kv hkv => (hent kv hkv).2.1
  have hids : ∀ kv ∈ (runJ (Store.mk [] 1) ops).index, kv.1 = kv.2.id :=
    fun kv hkv => (hent kv hkv).1
  refine ⟨?_, ?_, ?_, ?_, ?_, ?_, ?_, ?_, ?_⟩
  · rw [SQLiteTaskStorage.load_tasks, hrows, map_from_row_rowOf _ hgoods]
    rfl
  · rw [SQLiteTaskStorage.get_task, hrows,
      find_align _ (fun kv hkv => ⟨hids kv hkv, hgoods kv hkv⟩) id]
    rfl
  · rw [SQLiteTaskStorage.get_active_tasks, hrows, active_align _ hgoods]
    rfl
  · rw [SQLiteTaskStorage.get_completed_tasks, hrows, completed_align _ hgoods]
    rfl
  · rw [TaskStorage.list_tasks,
      pySlice_drop_take _ _ _ (mul_nonneg (by omega) hps) hps,
      SQLiteTaskStorage.list_tasks, hrows, slice_align _ hgoods]
    rfl
  · rw [TaskStorage.iter_tasks, pySlice_drop_take _ _ _ hst hct,
      SQLiteTaskStorage.iter_tasks, hrows, slice_align _ hgoods]
    rfl
  · exact trace_eq ops (Store.mk [] 1) (SqliteStore.mk [] 0) Inv_init hg
  · intro t ht
    rcases List.mem_map.1 ht with ⟨kv, hkv, heq⟩
    subst heq
    exact (hent kv hkv).2.2.1
  · rw [TaskStorage.load_tasks, ids_align _ hids]
    exact hpw.imp (fun hab => ne_of_lt hab)

/-- Witness for C1 at a concrete add / mark-done-update / delete sequence
(the spec's example sequence) with page 1 of size 10 and an iteration window
of 5 from offset 0. -/
theorem claim_C1_witness :
    ((∀ o ∈ [Op.add "T" "X" "high" ["t"],
        Op.update (Task.mark_done (Task.new "T" 1 "X" "high" ["t"]) "T2"),
        Op.del 1], goodOp o)
      ∧ (1 : Int) ≤ 1 ∧ (0 : Int) ≤ 10 ∧ (0 : Int) ≤ 0 ∧ (0 : Int) ≤ 5)
    ∧ (TaskStorage.load_tasks (runJ (Store.mk [] 1)
          [Op.add "T" "X" "high" ["t"],
           Op.update (Task.mark_done (Task.new "T" 1 "X" "high" ["t"]) "T2"),
           Op.del 1])
        = SQLiteTaskStorage.load_tasks (runQ (SqliteStore.mk [] 0)
            [Op.add "T" "X" "high" ["t"],
             Op.update (Task.mark_done (Task.new "T" 1 "X" "high" ["t"]) "T2"),
             Op.del 1])
      ∧ TaskStorage.get_task (runJ (Store.mk [] 1)
            [Op.add "T" "X" "high" ["t"],
             Op.update (Task.mark_done (Task.new "T" 1 "X" "high" ["t"]) "T2"),
             Op.del 1]) 1
          = SQLiteTaskStorage.get_task (runQ (SqliteStore.mk [] 0)
              [Op.add "T" "X" "high" ["t"],
               Op.update (Task.mark_done (Task.new "T" 1 "X" "high" ["t"]) "T2"),
               Op.del 1]) 1
      ∧ TaskStorage.get_active_tasks (runJ (Store.mk [] 1)
            [Op.add "T" "X" "high" ["t"],
             Op.update (Task.mark_done (Task.new "T" 1 "X" "high" ["t"]) "T2"),
             Op.del 1])
          = SQLiteTaskStorage.get_active_tasks (runQ (SqliteStore.mk [] 0)
              [Op.add "T" "X" "high" ["t"],
               Op.update (Task.mark_done (Task.new "T" 1 "X" "high" ["t"]) "T2"),
               Op.del 1])
      ∧ TaskStorage.get_completed_tasks (runJ (Store.mk [] 1)
            [Op.add "T" "X" "high" ["t"],
             Op.update (Task.mark_done (Task.new "T" 1 "X" "high" ["t"]) "T2"),
             Op.del 1])
          = SQLiteTaskStorage.get_completed_tasks (runQ (SqliteStore.mk [] 0)
              [Op.add "T" "X" "high" ["t"],
               Op.update (Task.mark_done (Task.new "T" 1 "X" "high" ["t"]) "T2"),
               Op.del 1])
      ∧ TaskStorage.list_tasks (runJ (Store.mk [] 1)
            [Op.add "T" "X" "high" ["t"],
             Op.update (Task.mark_done (Task.new "T" 1 "X" "high" ["t"]) "T2"),
             Op.del 1]) 1 10
          = SQLiteTaskStorage.list_tasks (runQ (SqliteStore.mk [] 0)
              [Op.add "T" "X" "high" ["t"],
               Op.update (Task.mark_done (Task.new "T" 1 "X" "high" ["t"]) "T2"),
               Op.del 1]) 1 10
      ∧ TaskStorage.iter_tasks (runJ (Store.mk [] 1)
            [Op.add "T" "X" "high" ["t"],
             Op.update (Task.mark_done (Task.new "T" 1 "X" "high" ["t"]) "T2"),
             Op.del 1]) 0 5
          = SQLiteTaskStorage.iter_tasks (runQ (SqliteStore.mk [] 0)
              [Op.add "T" "X" "high" ["t"],
               Op.update (Task.mark_done (Task.new "T" 1 "X" "high" ["t"]) "T2"),
               Op.del 1]) 0 5
      ∧ traceJ (Store.mk [] 1)
            [Op.add "T" "X" "high" ["t"],
             Op.update (Task.mark_done (Task.new "T" 1 "X" "high" ["t"]) "T2"),
             Op.del 1]
          = traceQ (SqliteStore.mk [] 0)
              [Op.add "T" "X" "high" ["t"],
               Op.update (Task.mark_done (Task.new "T" 1 "X" "high" ["t"]) "T2"),
               Op.del 1]
      ∧ (∀ t ∈ TaskStorage.load_tasks (runJ (Store.mk [] 1)
            [Op.add "T" "X" "high" ["t"],
             Op.update (Task.mark_done (Task.new "T" 1 "X" "high" ["t"]) "T2"),
             Op.del 1]), 0 < t.id)
      ∧ ((TaskStorage.load_tasks (runJ (Store.mk [] 1)
            [Op.add "T" "X" "high" ["t"],
             Op.update (Task.mark_done (Task.new "T" 1 "X" "high" ["t"]) "T2"),
             Op.del 1])).map Task.id).Nodup) :=
  ⟨⟨by decide, by decide, by decide, by decide, by decide⟩,
    claim_C1
      [Op.add "T" "X" "high" ["t"],
       Op.update (Task.mark_done (Task.new "T" 1 "X" "high" ["t"]) "T2"),
       Op.del 1]
      (by decide) 1 1 10 0 5 (by decide) (by decide) (by decide) (by decide)⟩

end Tix
